import Mathlib

/-!
Shallow embedding of the lox_interpreter repository (Rust) in Lean 4.

Conventions of the embedding:
* Rust f32 numbers are modelled as exact rationals (Rat); none of the
  verified claims depends on floating-point rounding or formatting.
* Rust HashMap<String, Literal> is modelled as an association list with
  most-recent-first lookup; insert is cons, which agrees with HashMap insert
  (overwrite) for lookup purposes.
* Rc<RefCell<Environment>> sharing is modelled by a store (list of
  environments) addressed by index; mutation is List.set.
* Rust panics (unwrap / expect / out-of-bounds indexing) are modelled by
  an outer Option layer: none means the Rust program panics (or, for the
  fuel-based evaluator, that the fuel bound was exhausted).
* Box-ed struct wrappers of the Rust AST (Binary, Unary, Assignment, ...)
  are flattened into constructor arguments.
* stdout is modelled as a list of printed lines accumulated in the state;
  SystemTime (native clock) is modelled by an oracle Nat -> Rat consulted
  at the ticks-th clock call.
-/

set_option maxHeartbeats 1000000

namespace Lox

/-- token.rs: TokenType. -/
inductive TokenType where
  | leftParen | rightParen | leftBrace | rightBrace
  | comma | dot | minus | plus | semicolon | slash | star
  | bang | bangEqual | equal | equalEqual
  | greater | greaterEqual | less | lessEqual
  | identifier | string | number
  | and | class_ | else_ | false_ | fun_ | for_ | if_ | nil | or
  | print | return_ | super_ | this | true_ | var | while_ | eof
  deriving DecidableEq, Repr

/-- callable.rs: NativeFunction (only Clock). -/
inductive NativeFunction where
  | clock
  deriving DecidableEq, Repr

mutual

/-- token.rs: Literal.  Function is flattened to its FuncDecl payload. -/
inductive Literal where
  | string (s : String)
  | number (n : Rat)
  | bool (b : Bool)
  | func (declaration : FuncDecl)
  | nativeFunc (n : NativeFunction)
  | null

/-- parser.rs: FuncDecl. -/
inductive FuncDecl where
  | mk (name : Token) (params : List Token) (body : List Stmt)

/-- token.rs: Token. -/
inductive Token where
  | mk (ttype : TokenType) (lexeme : String) (literal : Literal) (line : Nat)

/-- parser.rs: Expr, with the Box-ed payload structs flattened. -/
inductive Expr where
  | assignExpr (name : Token) (value : Expr)
  | binaryExpr (left : Expr) (operator : Token) (right : Expr)
  | callExpr (callee : Expr) (paren : Token) (arguments : Option (List Expr))
  | groupingExpr (expression : Expr)
  | unaryExpr (operator : Token) (right : Expr)
  | varExpr (name : Token)
  | logicExpr (left : Expr) (operator : Token) (right : Expr)
  | litExpr (l : Literal)

/-- parser.rs: Stmt, with the payload structs (If, While, For, VarDecl,
Return, Block) flattened into constructor arguments. -/
inductive Stmt where
  | exprStmt (e : Expr)
  | funcDeclStmt (f : FuncDecl)
  | printStmt (e : Expr)
  | forStmt (initName : Token) (initInitialiser : Expr) (condition : Stmt)
      (increment : Option Expr) (body : Stmt)
  | ifStmt (condition : Expr) (thenBranch : Stmt) (elseBranch : Stmt)
  | whileStmt (condition : Expr) (body : Stmt)
  | varDeclStmt (name : Token) (initialiser : Expr)
  | returnStmt (keyword : Token) (value : Expr)
  | blockStmt (statements : List Stmt)

end

def Token.ttype : Token → TokenType
  | .mk t _ _ _ => t

def Token.lexeme : Token → String
  | .mk _ l _ _ => l

def Token.literal : Token → Literal
  | .mk _ _ l _ => l

def Token.line : Token → Nat
  | .mk _ _ _ n => n

mutual

/-- Structural equality on Literal, mirroring the derived PartialEq of the
Rust types (f32 equality is modelled as Rat equality). -/
def litBeq : Literal → Literal → Bool
  | .string a, .string b => a == b
  | .number a, .number b => decide (a = b)
  | .bool a, .bool b => a == b
  | .func a, .func b => funcDeclBeq a b
  | .nativeFunc a, .nativeFunc b => decide (a = b)
  | .null, .null => true
  | _, _ => false

def funcDeclBeq : FuncDecl → FuncDecl → Bool
  | .mk n₁ p₁ b₁, .mk n₂ p₂ b₂ =>
    tokenBeq n₁ n₂ && tokenListBeq p₁ p₂ && stmtListBeq b₁ b₂

def tokenBeq : Token → Token → Bool
  | .mk t₁ l₁ lit₁ line₁, .mk t₂ l₂ lit₂ line₂ =>
    decide (t₁ = t₂) && l₁ == l₂ && litBeq lit₁ lit₂ && line₁ == line₂

def tokenListBeq : List Token → List Token → Bool
  | [], [] => true
  | t :: ts, u :: us => tokenBeq t u && tokenListBeq ts us
  | _, _ => false

def exprBeq : Expr → Expr → Bool
  | .assignExpr n₁ v₁, .assignExpr n₂ v₂ => tokenBeq n₁ n₂ && exprBeq v₁ v₂
  | .binaryExpr l₁ o₁ r₁, .binaryExpr l₂ o₂ r₂ =>
    exprBeq l₁ l₂ && tokenBeq o₁ o₂ && exprBeq r₁ r₂
  | .callExpr c₁ p₁ (some a₁), .callExpr c₂ p₂ (some a₂) =>
    exprBeq c₁ c₂ && tokenBeq p₁ p₂ && exprListBeq a₁ a₂
  | .callExpr c₁ p₁ none, .callExpr c₂ p₂ none =>
    exprBeq c₁ c₂ && tokenBeq p₁ p₂
  | .groupingExpr e₁, .groupingExpr e₂ => exprBeq e₁ e₂
  | .unaryExpr o₁ r₁, .unaryExpr o₂ r₂ => tokenBeq o₁ o₂ && exprBeq r₁ r₂
  | .varExpr n₁, .varExpr n₂ => tokenBeq n₁ n₂
  | .logicExpr l₁ o₁ r₁, .logicExpr l₂ o₂ r₂ =>
    exprBeq l₁ l₂ && tokenBeq o₁ o₂ && exprBeq r₁ r₂
  | .litExpr l₁, .litExpr l₂ => litBeq l₁ l₂
  | _, _ => false

def exprListBeq : List Expr → List Expr → Bool
  | [], [] => true
  | e :: es, f :: fs => exprBeq e f && exprListBeq es fs
  | _, _ => false

def stmtBeq : Stmt → Stmt → Bool
  | .exprStmt e₁, .exprStmt e₂ => exprBeq e₁ e₂
  | .funcDeclStmt f₁, .funcDeclStmt f₂ => funcDeclBeq f₁ f₂
  | .printStmt e₁, .printStmt e₂ => exprBeq e₁ e₂
  | .forStmt n₁ i₁ c₁ (some inc₁) b₁, .forStmt n₂ i₂ c₂ (some inc₂) b₂ =>
    tokenBeq n₁ n₂ && exprBeq i₁ i₂ && stmtBeq c₁ c₂ && exprBeq inc₁ inc₂ &&
      stmtBeq b₁ b₂
  | .forStmt n₁ i₁ c₁ none b₁, .forStmt n₂ i₂ c₂ none b₂ =>
    tokenBeq n₁ n₂ && exprBeq i₁ i₂ && stmtBeq c₁ c₂ && stmtBeq b₁ b₂
  | .ifStmt c₁ t₁ e₁, .ifStmt c₂ t₂ e₂ =>
    exprBeq c₁ c₂ && stmtBeq t₁ t₂ && stmtBeq e₁ e₂
  | .whileStmt c₁ b₁, .whileStmt c₂ b₂ => exprBeq c₁ c₂ && stmtBeq b₁ b₂
  | .varDeclStmt n₁ i₁, .varDeclStmt n₂ i₂ => tokenBeq n₁ n₂ && exprBeq i₁ i₂
  | .returnStmt k₁ v₁, .returnStmt k₂ v₂ => tokenBeq k₁ k₂ && exprBeq v₁ v₂
  | .blockStmt s₁, .blockStmt s₂ => stmtListBeq s₁ s₂
  | _, _ => false

def stmtListBeq : List Stmt → List Stmt → Bool
  | [], [] => true
  | s :: ss, t :: ts => stmtBeq s t && stmtListBeq ss ts
  | _, _ => false

end

/-- token.rs: Literal::is_truthy — false and nil are falsey, everything
else is truthy. -/
def Literal.is_truthy : Literal → Bool
  | .bool b => b
  | .null => false
  | _ => true

/-- Rust Debug names of TokenType variants (used by error Display). -/
def ttypeDebug : TokenType → String
  | .leftParen => "LeftParen" | .rightParen => "RightParen"
  | .leftBrace => "LeftBrace" | .rightBrace => "RightBrace"
  | .comma => "Comma" | .dot => "Dot" | .minus => "Minus" | .plus => "Plus"
  | .semicolon => "Semicolon" | .slash => "Slash" | .star => "Star"
  | .bang => "Bang" | .bangEqual => "BangEqual" | .equal => "Equal"
  | .equalEqual => "EqualEqual" | .greater => "Greater"
  | .greaterEqual => "GreaterEqual" | .less => "Less"
  | .lessEqual => "LessEqual" | .identifier => "Identifier"
  | .string => "String" | .number => "Number" | .and => "And"
  | .class_ => "Class" | .else_ => "Else" | .false_ => "False"
  | .fun_ => "Fun" | .for_ => "For" | .if_ => "If" | .nil => "Nil"
  | .or => "Or" | .print => "Print" | .return_ => "Return"
  | .super_ => "Super" | .this => "This" | .true_ => "True"
  | .var => "Var" | .while_ => "While" | .eof => "Eof"

/-- token.rs: Display for Token ("Type: .., Value: .., Literal: ..").
The Debug text of the attached literal is abstracted to a tag; no claim
inspects this text (it only appears inside the rendering of function
values, which no verified scenario prints). -/
def literalDebugTag : Literal → String
  | .string s => "String(" ++ s ++ ")"
  | .number n => "Number(" ++ toString n ++ ")"
  | .bool b => "Bool(" ++ toString b ++ ")"
  | .func _ => "Func(..)"
  | .nativeFunc _ => "NativeFunc(Clock)"
  | .null => "Null"

def Token.display (t : Token) : String :=
  "Type: " ++ ttypeDebug t.ttype ++ ", Value: " ++ t.lexeme ++
    ", Literal: " ++ literalDebugTag t.literal

/-- token.rs: Literal::as_string (f32 rendering abstracted to Rat
rendering; no verified claim depends on number formatting). -/
def Literal.as_string : Literal → String
  | .string s => s
  | .number n => toString n
  | .bool b => toString b
  | .func d => match d with
    | .mk name _ _ => "<fn " ++ name.display ++ ">"
  | .nativeFunc _ => "<native fn>"
  | .null => "nil"

/-- error.rs: RuntimeError. -/
structure RuntimeError where
  token : Token
  message : String

/-- error.rs: RuntimeBreak (ReturnError flattened to its value). -/
inductive RuntimeBreak where
  | runtimeErrorBreak (re : RuntimeError)
  | returnBreak (value : Literal)

/-- error.rs: LoxError. -/
structure LoxError where
  line : Nat
  message : String

/-- error.rs: ParseError. -/
structure ParseError where
  token : Token
  message : String

/-- error.rs: Display for LoxError. -/
def renderLoxError (e : LoxError) : String :=
  "[line " ++ toString e.line ++ "] Error while scanning: " ++ e.message

/-- error.rs: Display for ParseError. -/
def renderParseError (e : ParseError) : String :=
  if e.token.ttype = .eof then
    "Syntax error: Line " ++ toString e.token.line ++ " at end: " ++ e.message
  else
    "Syntax error: Line " ++ toString e.token.line ++ " at '" ++
      e.token.lexeme ++ "': " ++ e.message

/-- error.rs: Display for RuntimeBreak (the Debug text of a returned
value is abstracted; it is never printed by a verified scenario). -/
def renderRuntimeBreak : RuntimeBreak → String
  | .runtimeErrorBreak re =>
    "Runtime error at " ++ ttypeDebug re.token.ttype ++ ": " ++ re.message ++
      " [line " ++ toString re.token.line ++ "]"
  | .returnBreak v => "Value returned: " ++ v.as_string

/-- environment.rs: Environment.  The enclosing Rc<RefCell<..>> is a
store index. -/
structure Environment where
  enclosing : Option Nat
  values : List (String × Literal)

/-- environment.rs: Environment::new. -/
def Environment.new (enclosing : Option Nat) : Environment :=
  { enclosing := enclosing, values := [] }

/-- environment.rs: Environment::define — HashMap::insert modelled as
cons with most-recent-first lookup. -/
def Environment.define (env : Environment) (name : String) (value : Literal) :
    Environment :=
  { env with values := (name, value) :: env.values }

/-- HashMap::get on the association-list model. -/
def valuesGet : List (String × Literal) → String → Option Literal
  | [], _ => none
  | (k, v) :: rest, name => if k = name then some v else valuesGet rest name

/-- environment.rs: Environment::get, walking the enclosing chain in the
store.  fuel bounds the chain length (chains built by the interpreter are
strictly decreasing store indices, so store length is always enough);
none models a dangling reference or an unfinished walk, which never
occurs in reachable states. -/
def envGet : Nat → List Environment → Nat → Token →
    Option (Except RuntimeError Literal)
  | 0, _, _, _ => none
  | fuel + 1, store, ref, name =>
    match store.get? ref with
    | none => none
    | some env =>
      match valuesGet env.values name.lexeme with
      | some v => some (.ok v)
      | none =>
        match env.enclosing with
        | some parent => envGet fuel store parent name
        | none =>
          some (.error ⟨name, "Undefined variable '" ++ name.lexeme ++ "'."⟩)

/-- environment.rs: Environment::assign, walking the enclosing chain and
mutating the nearest binding (mutation = List.set on the store). -/
def envAssign : Nat → List Environment → Nat → Token → Literal →
    Option (Except RuntimeBreak (List Environment))
  | 0, _, _, _, _ => none
  | fuel + 1, store, ref, name, value =>
    match store.get? ref with
    | none => none
    | some env =>
      if (valuesGet env.values name.lexeme).isSome then
        some (.ok (store.set ref (env.define name.lexeme value)))
      else
        match env.enclosing with
        | some parent => envAssign fuel store parent name value
        | none =>
          some (.error (.runtimeErrorBreak
            ⟨name, "Undefined variable '" ++ name.lexeme ++ "'."⟩))

/-- interpreter.rs: the Interpreter fields, plus the modelled stdout
(output, most recent line first) and the count of native-clock calls
(ticks). -/
structure State where
  store : List Environment
  globals : Nat
  environment : Nat
  output : List String
  ticks : Nat

/-- interpreter.rs: Interpreter::new + insert_native_functions.  The
globals environment is store index 0 with clock pre-defined; the current
environment starts as the globals. -/
def Interpreter.new : State :=
  { store := [(Environment.new none).define "clock" (.nativeFunc .clock)]
  , globals := 0
  , environment := 0
  , output := []
  , ticks := 0 }

/-- interpreter.rs: Interpreter::is_equal. -/
def isEqual (left right : Literal) : Bool :=
  match left, right with
  | .null, .null => true
  | .null, _ => false
  | _, _ => litBeq left right

/-- The call-counting oracle standing for SystemTime in
NativeFunction::clock: the k-th clock call returns oracle k. -/
abbrev ClockOracle := Nat → Rat

namespace Scanner

/-- scanner.rs: the Scanner fields.  The source is kept as its character
sequence. -/
structure SState where
  source : List Char
  tokens : List Token
  start : Nat
  current : Nat
  line : Nat

/-- scanner.rs: Scanner::new. -/
def SState.new (source : List Char) : SState :=
  { source := source, tokens := [], start := 0, current := 0, line := 1 }

/-- The byte length of the source (Rust String::len); char positions and
byte positions coincide exactly on all-ASCII sources. -/
def byteLen (source : List Char) : Nat := (source.map Char.utf8Size).sum

theorem length_le_byteLen (s : List Char) : s.length ≤ byteLen s := by
  induction s with
  | nil => simp [byteLen]
  | cons c cs ih =>
    have := Char.utf8Size_pos c
    simp only [byteLen, List.map_cons, List.sum_cons, List.length_cons] at *
    omega

/-- scanner.rs: is_at_end — compares the char cursor against the byte
length of the source. -/
def isAtEnd (st : SState) : Bool := byteLen st.source ≤ st.current

/-- scanner.rs: advance — self.current += 1 then chars().nth(current-1);
none models the .expect panic. -/
def advance (st : SState) : Option (Char × SState) :=
  match st.source[st.current]? with
  | some c => some (c, { st with current := st.current + 1 })
  | none => none

theorem advance_spec {st : SState} {c : Char} {st' : SState}
    (h : advance st = some (c, st')) :
    st'.source = st.source ∧ st'.current = st.current + 1 ∧
      st.current < st.source.length := by
  unfold advance at h
  cases hg : st.source[st.current]? with
  | none => simp [hg] at h
  | some d =>
    have hlt : st.current < st.source.length := by
      have := List.getElem?_eq_some.mp hg
      exact this.1
    simp only [hg, Option.some.injEq, Prod.mk.injEq] at h
    exact ⟨by rw [← h.2], by rw [← h.2], hlt⟩

/-- scanner.rs: peek — '\0' at end, otherwise the current char; none
models the index panic (possible only on non-ASCII sources). -/
def peek (st : SState) : Option Char :=
  if isAtEnd st then some '\x00'
  else st.source[st.current]?

/-- scanner.rs: peek_next — '\0' when current + 1 is at least the byte
length, otherwise the char at current + 1 (none = index panic). -/
def peekNext (st : SState) : Option Char :=
  if byteLen st.source ≤ st.current + 1 then some '\x00'
  else st.source[st.current + 1]?

/-- scanner.rs: the matches method — consumes the current char if it equals the
expectation.  Note the Rust is_some_and: when chars().nth(current) is
None (cursor past the char count, possible only on non-ASCII sources) the
function still consumes and returns true. -/
def matchesChar (expected : Char) (st : SState) : Bool × SState :=
  if isAtEnd st then (false, st)
  else
    match st.source[st.current]? with
    | some c =>
      if c ≠ expected then (false, st)
      else (true, { st with current := st.current + 1 })
    | none => (true, { st with current := st.current + 1 })

/-- scanner.rs: add_token_literal — lexeme is source[start..current]. -/
def addTokenLiteral (ttype : TokenType) (literal : Literal) (st : SState) :
    SState :=
  let text := String.mk ((st.source.drop st.start).take (st.current - st.start))
  { st with tokens := st.tokens ++ [Token.mk ttype text literal st.line] }

/-- scanner.rs: add_token. -/
def addToken (ttype : TokenType) (st : SState) : SState :=
  addTokenLiteral ttype .null st

/-- scanner.rs: the keyword table in identifier(). -/
def keywords : String → Option TokenType
  | "and" => some .and
  | "class" => some .class_
  | "else" => some .else_
  | "false" => some .false_
  | "for" => some .for_
  | "fun" => some .fun_
  | "if" => some .if_
  | "nil" => some .nil
  | "or" => some .or
  | "print" => some .print
  | "return" => some .return_
  | "super" => some .super_
  | "this" => some .this
  | "true" => some .true_
  | "var" => some .var
  | "while" => some .while_
  | _ => none

/-- scanner.rs: the while loop of identifier() (is_alphanumeric is
modelled on its ASCII fragment; claims restrict sources to ASCII).  The
fuel bounds the iteration count; every caller passes byteLen + 1, which
always suffices because each iteration advances the cursor. -/
def identifierLoop : Nat → SState → Option SState
  | 0, _ => none
  | fuel + 1, st =>
    match peek st with
    | none => none
    | some c =>
      if c.isAlphanum then
        match advance st with
        | none => none
        | some (_, st') => identifierLoop fuel st'
      else some st

/-- scanner.rs: identifier(). -/
def identifier (st : SState) : Option SState :=
  match identifierLoop (byteLen st.source + 1) st with
  | none => none
  | some st₁ =>
    let text := String.mk ((st₁.source.drop st₁.start).take (st₁.current - st₁.start))
    match keywords text with
    | some ttype => some (addToken ttype st₁)
    | none => some (addToken .identifier st₁)

/-- scanner.rs: the first while loop of number() (fuel as for
identifierLoop). -/
def digitsLoop : Nat → SState → Option SState
  | 0, _ => none
  | fuel + 1, st =>
    match peek st with
    | none => none
    | some c =>
      if c.isDigit then
        match advance st with
        | none => none
        | some (_, st') => digitsLoop fuel st'
      else some st

/-- Digit-string value (used by the model of f32 parsing). -/
def digitsVal (cs : List Char) : Option Nat :=
  if cs ≠ [] ∧ cs.all Char.isDigit then
    some (cs.foldl (fun n c => 10 * n + (c.toNat - Char.toNat '0')) 0)
  else none

/-- Models str::parse::<f32> on the digit-shaped lexemes the scanner
produces (digits, optionally a dot and more digits), with the exact
rational value; other shapes fail like the Rust parse would. -/
def parseNumLexeme (cs : List Char) : Option Rat :=
  match cs.splitOn '.' with
  | [intPart] => (digitsVal intPart).map (fun n => (n : Rat))
  | [intPart, fracPart] =>
    match digitsVal intPart, digitsVal fracPart with
    | some i, some f =>
      some ((i : Rat) + (f : Rat) / ((10 : Rat) ^ fracPart.length))
    | _, _ => none
  | _ => none

/-- scanner.rs: the tail of number() — slice the lexeme, parse it, emit
the token or the "No number" error. -/
def finishNumber (st : SState) : Option (Except LoxError SState) :=
  let lex := (st.source.drop st.start).take (st.current - st.start)
  match parseNumLexeme lex with
  | some q => some (.ok (addTokenLiteral .number (.number q) st))
  | none => some (.error ⟨st.line, "No number"⟩)

/-- scanner.rs: number(), with Rust && short-circuit mirrored. -/
def number (st : SState) : Option (Except LoxError SState) :=
  match digitsLoop (byteLen st.source + 1) st with
  | none => none
  | some st₁ =>
    match peek st₁ with
    | none => none
    | some c =>
      if c = '.' then
        match peekNext st₁ with
        | none => none
        | some d =>
          if d.isDigit then
            match advance st₁ with
            | none => none
            | some (_, st₂) =>
              match digitsLoop (byteLen st₂.source + 1) st₂ with
              | none => none
              | some st₃ => finishNumber st₃
          else finishNumber st₁
      else finishNumber st₁

/-- scanner.rs: the while loop of string(), bumping line on newlines
(fuel as for identifierLoop). -/
def stringLoop : Nat → SState → Option SState
  | 0, _ => none
  | fuel + 1, st =>
    match peek st with
    | none => none
    | some c =>
      if c ≠ '"' ∧ isAtEnd st = false then
        match advance (if c = '\n' then { st with line := st.line + 1 } else st) with
        | none => none
        | some (_, st') => stringLoop fuel st'
      else some st

/-- scanner.rs: string(). -/
def string (st : SState) : Option (Except LoxError SState) :=
  match stringLoop (byteLen st.source + 1) st with
  | none => none
  | some st₁ =>
    if isAtEnd st₁ then some (.error ⟨st₁.line, "Unterminated string."⟩)
    else
      match advance st₁ with
      | none => none
      | some (_, st₂) =>
        let value :=
          String.mk ((st₂.source.drop (st₂.start + 1)).take
            (st₂.current - 1 - (st₂.start + 1)))
        some (.ok (addTokenLiteral .string (.string value) st₂))

/-- scanner.rs: the // comment loop in scan_token (fuel as for
identifierLoop). -/
def lineCommentLoop : Nat → SState → Option SState
  | 0, _ => none
  | fuel + 1, st =>
    match peek st with
    | none => none
    | some c =>
      if c ≠ '\n' ∧ isAtEnd st = false then
        match advance st with
        | none => none
        | some (_, st') => lineCommentLoop fuel st'
      else some st

/-- scanner.rs: the /* comment loop in scan_token.  The Rust loop
condition (advance while peek is not star AND peek_next is not slash,
with && short-circuit) is mirrored exactly; the loop does not bump line
on newlines. -/
def blockCommentLoop : Nat → SState → Option (Except LoxError SState)
  | 0, _ => none
  | fuel + 1, st =>
    match peek st with
    | none => none
    | some c =>
      if c = '*' then some (.ok st)
      else
        match peekNext st with
        | none => none
        | some d =>
          if d = '/' then some (.ok st)
          else if isAtEnd st then
            some (.error ⟨st.line, "Unclosed block comment."⟩)
          else
            match advance st with
            | none => none
            | some (_, st') => blockCommentLoop fuel st'

/-- scanner.rs: scan_token. -/
def scanToken (st : SState) : Option (Except LoxError SState) :=
  match advance st with
  | none => none
  | some (c, st) =>
    match c with
    | '(' => some (.ok (addToken .leftParen st))
    | ')' => some (.ok (addToken .rightParen st))
    | '{' => some (.ok (addToken .leftBrace st))
    | '}' => some (.ok (addToken .rightBrace st))
    | ',' => some (.ok (addToken .comma st))
    | '.' => some (.ok (addToken .dot st))
    | '-' => some (.ok (addToken .minus st))
    | '+' => some (.ok (addToken .plus st))
    | ';' => some (.ok (addToken .semicolon st))
    | '*' => some (.ok (addToken .star st))
    | '!' =>
      let p := matchesChar '=' st
      some (.ok (addToken (if p.1 then .bangEqual else .bang) p.2))
    | '=' =>
      let p := matchesChar '=' st
      some (.ok (addToken (if p.1 then .equalEqual else .equal) p.2))
    | '<' =>
      let p := matchesChar '=' st
      some (.ok (addToken (if p.1 then .lessEqual else .less) p.2))
    | '>' =>
      let p := matchesChar '=' st
      some (.ok (addToken (if p.1 then .greaterEqual else .greater) p.2))
    | '/' =>
      match matchesChar '/' st with
      | (true, st) => (lineCommentLoop (byteLen st.source + 1) st).map .ok
      | (false, st) =>
        match matchesChar '*' st with
        | (true, st) =>
          match blockCommentLoop (byteLen st.source + 1) st with
          | none => none
          | some (.error e) => some (.error e)
          | some (.ok st) =>
            match advance st with
            | none => none
            | some (_, st) =>
              match advance st with
              | none => none
              | some (_, st) => some (.ok st)
        | (false, st) => some (.ok (addToken .slash st))
    | ' ' => some (.ok st)
    | '\r' => some (.ok st)
    | '\t' => some (.ok st)
    | '\n' => some (.ok { st with line := st.line + 1 })
    | '"' => string st
    | c =>
      if c.isDigit then number st
      else if c.isAlpha then (identifier st).map .ok
      else some (.error ⟨st.line, "Unexpected character."⟩)

/-- scanner.rs: the while loop of scan_tokens plus the Eof push.  fuel
bounds the iteration count; scanTokens supplies byteLen + 1 which always
suffices because scan_token strictly advances the cursor. -/
def scanLoop : Nat → SState → Option (Except LoxError (List Token))
  | 0, _ => none
  | fuel + 1, st =>
    if isAtEnd st then
      some (.ok (st.tokens ++ [Token.mk .eof "" .null st.line]))
    else
      match scanToken { st with start := st.current } with
      | none => none
      | some (.error e) => some (.error e)
      | some (.ok st') => scanLoop fuel st'

/-- scanner.rs: scan_tokens on a source string. -/
def scanTokens (source : String) : Option (Except LoxError (List Token)) :=
  scanLoop (byteLen source.data + 1) (SState.new source.data)

/-- All characters are one UTF-8 byte (pure-ASCII source), so that the
byte cursor of the Rust scanner coincides with the char index. -/
def asciiOnly (s : List Char) : Bool := s.all (fun c => c.utf8Size = 1)

/-- Whether the source contains a slash immediately followed by a star
(the opener of the block-comment path). -/
def hasSlashStar : List Char → Bool
  | [] => false
  | [_] => false
  | c :: d :: rest => (c = '/' && d = '*') || hasSlashStar (d :: rest)

theorem byteLen_eq_length {s : List Char} (h : asciiOnly s = true) :
    byteLen s = s.length := by
  induction s with
  | nil => rfl
  | cons c cs ih =>
    simp only [asciiOnly, List.all_cons, Bool.and_eq_true, decide_eq_true_eq]
      at h
    have := ih (by simp [asciiOnly, h.2])
    simp only [byteLen, List.map_cons, List.sum_cons, List.length_cons] at *
    omega

theorem hasSlashStar_false {s : List Char} (h : hasSlashStar s = false) :
    ∀ i, ¬(s[i]? = some '/' ∧ s[i + 1]? = some '*') := by
  induction s with
  | nil => intro i hi; simp at hi
  | cons c cs ih =>
    intro i hi
    cases cs with
    | nil =>
      cases i with
      | zero => simp at hi
      | succ j => simp at hi
    | cons d rest =>
      simp only [hasSlashStar, Bool.or_eq_false_iff, Bool.and_eq_false_iff]
        at h
      cases i with
      | zero =>
        simp only [List.getElem?_cons_zero, List.getElem?_cons_succ,
          Option.some.injEq] at hi
        obtain ⟨h1, h2⟩ := hi
        cases h.1 with
        | inl hc => simp_all
        | inr hd => simp_all
      | succ j => exact ih h.2 j (by simpa using hi)

theorem identifierLoop_total : ∀ (fuel : Nat) (st : SState),
    asciiOnly st.source = true → st.current ≤ st.source.length →
    st.source.length + 1 - st.current ≤ fuel →
    ∃ st', identifierLoop fuel st = some st' ∧ st'.source = st.source ∧
      st'.tokens = st.tokens ∧ st'.start = st.start ∧
      st.current ≤ st'.current ∧ st'.current ≤ st.source.length := by
  intro fuel
  induction fuel with
  | zero => intro st _ hc hf; omega
  | succ fuel ih =>
    intro st ha hc hf
    have hbl := byteLen_eq_length ha
    by_cases hlt : st.current < st.source.length
    · have hend : isAtEnd st = false := by
        simp only [isAtEnd, decide_eq_false_iff_not, not_le]; omega
      have hg : st.source[st.current]? = some st.source[st.current] :=
        List.getElem?_eq_getElem hlt
      have hP : peek st = some st.source[st.current] := by
        simp [peek, hend, hg]
      by_cases halp : (st.source[st.current]).isAlphanum
      · have hadv : advance st =
            some (st.source[st.current], { st with current := st.current + 1 }) := by
          simp [advance, hg]
        obtain ⟨st', h1, h2, h3, h4, h5, h6⟩ :=
          ih { st with current := st.current + 1 } (by simpa using ha)
            (by simp; omega) (by simp; omega)
        refine ⟨st', ?_, by simpa using h2, by simpa using h3,
          by simpa using h4, by simp at h5; omega, by simpa using h6⟩
        simp only [identifierLoop, hP, halp, if_true, hadv]
        exact h1
      · refine ⟨st, ?_, rfl, rfl, rfl, le_refl _, by omega⟩
        simp [identifierLoop, hP, halp]
    · have hend : isAtEnd st = true := by
        simp only [isAtEnd, decide_eq_true_eq]; omega
      have hP : peek st = some '\x00' := by simp [peek, hend]
      refine ⟨st, ?_, rfl, rfl, rfl, le_refl _, by omega⟩
      simp [identifierLoop, hP]

theorem digitsLoop_total : ∀ (fuel : Nat) (st : SState),
    asciiOnly st.source = true → st.current ≤ st.source.length →
    st.source.length + 1 - st.current ≤ fuel →
    ∃ st', digitsLoop fuel st = some st' ∧ st'.source = st.source ∧
      st'.tokens = st.tokens ∧ st'.start = st.start ∧
      st.current ≤ st'.current ∧ st'.current ≤ st.source.length := by
  intro fuel
  induction fuel with
  | zero => intro st _ hc hf; omega
  | succ fuel ih =>
    intro st ha hc hf
    have hbl := byteLen_eq_length ha
    by_cases hlt : st.current < st.source.length
    · have hend : isAtEnd st = false := by
        simp only [isAtEnd, decide_eq_false_iff_not, not_le]; omega
      have hg : st.source[st.current]? = some st.source[st.current] :=
        List.getElem?_eq_getElem hlt
      have hP : peek st = some st.source[st.current] := by
        simp [peek, hend, hg]
      by_cases halp : (st.source[st.current]).isDigit
      · have hadv : advance st =
            some (st.source[st.current], { st with current := st.current + 1 }) := by
          simp [advance, hg]
        obtain ⟨st', h1, h2, h3, h4, h5, h6⟩ :=
          ih { st with current := st.current + 1 } (by simpa using ha)
            (by simp; omega) (by simp; omega)
        refine ⟨st', ?_, by simpa using h2, by simpa using h3,
          by simpa using h4, by simp at h5; omega, by simpa using h6⟩
        simp only [digitsLoop, hP, halp, if_true, hadv]
        exact h1
      · refine ⟨st, ?_, rfl, rfl, rfl, le_refl _, by omega⟩
        simp [digitsLoop, hP, halp]
    · have hend : isAtEnd st = true := by
        simp only [isAtEnd, decide_eq_true_eq]; omega
      have hP : peek st = some '\x00' := by simp [peek, hend]
      refine ⟨st, ?_, rfl, rfl, rfl, le_refl _, by omega⟩
      simp [digitsLoop, hP]

theorem lineCommentLoop_total : ∀ (fuel : Nat) (st : SState),
    asciiOnly st.source = true → st.current ≤ st.source.length →
    st.source.length + 1 - st.current ≤ fuel →
    ∃ st', lineCommentLoop fuel st = some st' ∧ st'.source = st.source ∧
      st'.tokens = st.tokens ∧ st'.start = st.start ∧
      st.current ≤ st'.current ∧ st'.current ≤ st.source.length := by
  intro fuel
  induction fuel with
  | zero => intro st _ hc hf; omega
  | succ fuel ih =>
    intro st ha hc hf
    have hbl := byteLen_eq_length ha
    by_cases hlt : st.current < st.source.length
    · have hend : isAtEnd st = false := by
        simp only [isAtEnd, decide_eq_false_iff_not, not_le]; omega
      have hg : st.source[st.current]? = some st.source[st.current] :=
        List.getElem?_eq_getElem hlt
      have hP : peek st = some st.source[st.current] := by
        simp [peek, hend, hg]
      by_cases hnl : st.source[st.current] = '\n'
      · refine ⟨st, ?_, rfl, rfl, rfl, le_refl _, by omega⟩
        simp [lineCommentLoop, hP, hnl]
      · have hadv : advance st =
            some (st.source[st.current], { st with current := st.current + 1 }) := by
          simp [advance, hg]
        obtain ⟨st', h1, h2, h3, h4, h5, h6⟩ :=
          ih { st with current := st.current + 1 } (by simpa using ha)
            (by simp; omega) (by simp; omega)
        refine ⟨st', ?_, by simpa using h2, by simpa using h3,
          by simpa using h4, by simp at h5; omega, by simpa using h6⟩
        have hstep : lineCommentLoop (fuel + 1) st =
            lineCommentLoop fuel { st with current := st.current + 1 } := by
          simp only [lineCommentLoop, hP]
          rw [if_pos (show st.source[st.current] ≠ '\n' ∧ isAtEnd st = false
            from ⟨hnl, hend⟩), hadv]
        rw [hstep]
        exact h1
    · have hend : isAtEnd st = true := by
        simp only [isAtEnd, decide_eq_true_eq]; omega
      have hP : peek st = some '\x00' := by simp [peek, hend]
      refine ⟨st, ?_, rfl, rfl, rfl, le_refl _, by omega⟩
      simp [lineCommentLoop, hP, hend]

theorem stringLoop_total : ∀ (fuel : Nat) (st : SState),
    asciiOnly st.source = true → st.current ≤ st.source.length →
    st.source.length + 1 - st.current ≤ fuel →
    ∃ st', stringLoop fuel st = some st' ∧ st'.source = st.source ∧
      st'.tokens = st.tokens ∧ st'.start = st.start ∧
      st.current ≤ st'.current ∧ st'.current ≤ st.source.length := by
  intro fuel
  induction fuel with
  | zero => intro st _ hc hf; omega
  | succ fuel ih =>
    intro st ha hc hf
    have hbl := byteLen_eq_length ha
    by_cases hlt : st.current < st.source.length
    · have hend : isAtEnd st = false := by
        simp only [isAtEnd, decide_eq_false_iff_not, not_le]; omega
      have hg : st.source[st.current]? = some st.source[st.current] :=
        List.getElem?_eq_getElem hlt
      have hP : peek st = some st.source[st.current] := by
        simp [peek, hend, hg]
      by_cases hq : st.source[st.current] = '"'
      · refine ⟨st, ?_, rfl, rfl, rfl, le_refl _, by omega⟩
        simp [stringLoop, hP, hq]
      · by_cases hnl : st.source[st.current] = '\n'
        · have hadv : advance { st with line := st.line + 1 } =
              some (st.source[st.current],
                { st with line := st.line + 1, current := st.current + 1 }) := by
            simp [advance, hg]
          obtain ⟨st', h1, h2, h3, h4, h5, h6⟩ :=
            ih { st with line := st.line + 1, current := st.current + 1 }
              (by simpa using ha) (by simp; omega) (by simp; omega)
          refine ⟨st', ?_, by simpa using h2, by simpa using h3,
            by simpa using h4, by simp at h5; omega, by simpa using h6⟩
          have hstep : stringLoop (fuel + 1) st = stringLoop fuel
              { st with line := st.line + 1, current := st.current + 1 } := by
            simp only [stringLoop, hP]
            rw [if_pos (show st.source[st.current] ≠ '"' ∧ isAtEnd st = false
              from ⟨hq, hend⟩), if_pos hnl, hadv]
          rw [hstep]
          exact h1
        · have hadv : advance st =
              some (st.source[st.current], { st with current := st.current + 1 }) := by
            simp [advance, hg]
          obtain ⟨st', h1, h2, h3, h4, h5, h6⟩ :=
            ih { st with current := st.current + 1 } (by simpa using ha)
              (by simp; omega) (by simp; omega)
          refine ⟨st', ?_, by simpa using h2, by simpa using h3,
            by simpa using h4, by simp at h5; omega, by simpa using h6⟩
          have hstep : stringLoop (fuel + 1) st = stringLoop fuel
              { st with current := st.current + 1 } := by
            simp only [stringLoop, hP]
            rw [if_pos (show st.source[st.current] ≠ '"' ∧ isAtEnd st = false
              from ⟨hq, hend⟩), if_neg hnl, hadv]
          rw [hstep]
          exact h1
    · have hend : isAtEnd st = true := by
        simp only [isAtEnd, decide_eq_true_eq]; omega
      have hP : peek st = some '\x00' := by simp [peek, hend]
      refine ⟨st, ?_, rfl, rfl, rfl, le_refl _, by omega⟩
      simp [stringLoop, hP, hend]

theorem peek_eq {st : SState} (ha : asciiOnly st.source = true) :
    peek st = some (st.source.getD st.current '\x00') := by
  have hbl := byteLen_eq_length ha
  by_cases hlt : st.current < st.source.length
  · have hend : isAtEnd st = false := by
      simp only [isAtEnd, decide_eq_false_iff_not, not_le]; omega
    simp [peek, hend, List.getD, List.getElem?_eq_getElem hlt]
  · have hend : isAtEnd st = true := by
      simp only [isAtEnd, decide_eq_true_eq]; omega
    simp only [peek, hend, if_true]
    congr 1
    rw [List.getD_eq_default]
    omega

theorem peekNext_eq {st : SState} (ha : asciiOnly st.source = true) :
    peekNext st = some (st.source.getD (st.current + 1) '\x00') := by
  have hbl := byteLen_eq_length ha
  by_cases hlt : st.current + 1 < st.source.length
  · have hend : ¬(byteLen st.source ≤ st.current + 1) := by omega
    simp [peekNext, hend, List.getD, List.getElem?_eq_getElem hlt]
  · have hend : byteLen st.source ≤ st.current + 1 := by omega
    simp only [peekNext, if_pos hend]
    congr 1
    rw [List.getD_eq_default]
    omega

theorem addTokenLiteral_fields (tt : TokenType) (lit : Literal)
    (st : SState) : (addTokenLiteral tt lit st).source = st.source ∧
      (addTokenLiteral tt lit st).current = st.current ∧
      (addTokenLiteral tt lit st).start = st.start ∧
      (addTokenLiteral tt lit st).line = st.line :=
  ⟨rfl, rfl, rfl, rfl⟩

theorem matchesChar_spec (c : Char) (st : SState)
    (ha : asciiOnly st.source = true)
    (hcur : st.current ≤ st.source.length) :
    (matchesChar c st).2.source = st.source ∧
      (matchesChar c st).2.tokens = st.tokens ∧
      (matchesChar c st).2.start = st.start ∧
      (matchesChar c st).2.line = st.line ∧
      st.current ≤ (matchesChar c st).2.current ∧
      (matchesChar c st).2.current ≤ st.source.length := by
  have hbl := byteLen_eq_length ha
  by_cases hlt : st.current < st.source.length
  · have hend : isAtEnd st = false := by
      simp only [isAtEnd, decide_eq_false_iff_not, not_le]; omega
    have hg := List.getElem?_eq_getElem hlt
    by_cases hc : st.source[st.current] ≠ c
    · simp [matchesChar, hend, hg, hc]
      omega
    · simp only [not_not] at hc
      simp [matchesChar, hend, hg, hc]
      omega
  · have hend : isAtEnd st = true := by
      simp only [isAtEnd, decide_eq_true_eq]; omega
    simp [matchesChar, hend]
    omega

theorem matchesChar_true {c : Char} {st : SState} {st' : SState}
    (ha : asciiOnly st.source = true)
    (h : matchesChar c st = (true, st')) :
    st.source[st.current]? = some c ∧ st'.current = st.current + 1 ∧
      st'.source = st.source := by
  have hbl := byteLen_eq_length ha
  unfold matchesChar at h
  split at h
  · simp at h
  · rename_i hend
    split at h
    · rename_i c' hg'
      split at h
      · simp at h
      · rename_i hcc
        simp only [not_not] at hcc
        injection h with h1 h2
        subst hcc
        exact ⟨hg', by rw [← h2], by rw [← h2]⟩
    · rename_i hg'
      rw [List.getElem?_eq_none_iff] at hg'
      simp only [isAtEnd, decide_eq_true_eq] at hend
      omega

theorem matchesChar_false {c : Char} {st st' : SState}
    (h : matchesChar c st = (false, st')) : st' = st := by
  unfold matchesChar at h
  split at h
  · injection h with h1 h2; exact h2.symm
  · split at h
    · split at h
      · injection h with h1 h2; exact h2.symm
      · simp at h
    · simp at h

theorem finishNumber_total (st : SState) :
    ∃ r, finishNumber st = some r ∧ ∀ st', r = Except.ok st' →
      st'.source = st.source ∧ st'.current = st.current := by
  simp only [finishNumber]
  cases hp : parseNumLexeme ((st.source.drop st.start).take
      (st.current - st.start)) with
  | some q =>
    refine ⟨_, rfl, ?_⟩
    intro st' hr
    injection hr with hr
    subst hr
    exact ⟨rfl, rfl⟩
  | none =>
    refine ⟨_, rfl, ?_⟩
    intro st' hr
    cases hr

theorem identifier_total (st : SState) (ha : asciiOnly st.source = true)
    (hc : st.current ≤ st.source.length) :
    ∃ st₁, identifier st = some st₁ ∧ st₁.source = st.source ∧
      st.current ≤ st₁.current ∧ st₁.current ≤ st.source.length := by
  obtain ⟨stL, h1, h2, h3, h4, h5, h6⟩ := identifierLoop_total
    (byteLen st.source + 1) st ha hc
    (by have := byteLen_eq_length ha; omega)
  cases hk : keywords (String.mk ((stL.source.drop stL.start).take
      (stL.current - stL.start))) with
  | some tt =>
    exact ⟨addToken tt stL, by simp [identifier, h1, hk],
      by simpa [addToken, addTokenLiteral] using h2,
      by simpa [addToken, addTokenLiteral] using h5,
      by simpa [addToken, addTokenLiteral] using h6⟩
  | none =>
    exact ⟨addToken .identifier stL, by simp [identifier, h1, hk],
      by simpa [addToken, addTokenLiteral] using h2,
      by simpa [addToken, addTokenLiteral] using h5,
      by simpa [addToken, addTokenLiteral] using h6⟩

theorem number_total (st : SState) (ha : asciiOnly st.source = true)
    (hc : st.current ≤ st.source.length) :
    ∃ r, number st = some r ∧ ∀ st', r = Except.ok st' →
      st'.source = st.source ∧ st.current ≤ st'.current ∧
        st'.current ≤ st.source.length := by
  have hbl := byteLen_eq_length ha
  obtain ⟨st₁, h1, h2, h3, h4, h5, h6⟩ := digitsLoop_total
    (byteLen st.source + 1) st ha hc (by omega)
  have ha₁ : asciiOnly st₁.source = true := by rw [h2]; exact ha
  have hp₁ := peek_eq ha₁
  by_cases hdot : st₁.source.getD st₁.current '\x00' = '.'
  · have hlt₁ : st₁.current < st₁.source.length := by
      by_contra hge
      rw [List.getD_eq_default _ _ (by omega)] at hdot
      exact absurd hdot (by decide)
    have hpn := peekNext_eq ha₁
    by_cases hdig : (st₁.source.getD (st₁.current + 1) '\x00').isDigit
    · have hadv : advance st₁ = some (st₁.source[st₁.current],
          { st₁ with current := st₁.current + 1 }) := by
        simp [advance, List.getElem?_eq_getElem hlt₁]
      obtain ⟨st₃, g1, g2, g3, g4, g5, g6⟩ := digitsLoop_total
        (byteLen st₁.source + 1) { st₁ with current := st₁.current + 1 }
        (by simpa using ha₁) (by simp; omega)
        (by simp [byteLen_eq_length ha₁]; omega)
      obtain ⟨r, f1, f2⟩ := finishNumber_total st₃
      refine ⟨r, ?_, ?_⟩
      · simp only [number, h1, hp₁, hdot, if_pos rfl, hpn, hdig, if_true,
          hadv, g1, f1]
      · intro st' hr
        obtain ⟨e1, e2⟩ := f2 st' hr
        have : st₃.source = st.source := by simpa [h2] using g2
        refine ⟨by rw [e1, this], by simp [h2] at g5; omega, ?_⟩
        rw [e2]
        have := g6
        simp [h2] at this
        omega
    · obtain ⟨r, f1, f2⟩ := finishNumber_total st₁
      refine ⟨r, ?_, ?_⟩
      · simp only [number, h1, hp₁, hdot, if_pos rfl, hpn, hdig,
          Bool.false_eq_true, if_false, f1]
        split <;> rfl
      · intro st' hr
        obtain ⟨e1, e2⟩ := f2 st' hr
        exact ⟨by rw [e1, h2], by omega, by omega⟩
  · obtain ⟨r, f1, f2⟩ := finishNumber_total st₁
    refine ⟨r, ?_, ?_⟩
    · simp only [number, h1, hp₁, if_neg hdot, f1]
    · intro st' hr
      obtain ⟨e1, e2⟩ := f2 st' hr
      exact ⟨by rw [e1, h2], by omega, by omega⟩

theorem string_total (st : SState) (ha : asciiOnly st.source = true)
    (hc : st.current ≤ st.source.length) :
    ∃ r, string st = some r ∧ ∀ st', r = Except.ok st' →
      st'.source = st.source ∧ st.current ≤ st'.current ∧
        st'.current ≤ st.source.length := by
  have hbl := byteLen_eq_length ha
  obtain ⟨st₁, h1, h2, h3, h4, h5, h6⟩ := stringLoop_total
    (byteLen st.source + 1) st ha hc (by omega)
  by_cases hend : isAtEnd st₁ = true
  · refine ⟨.error ⟨st₁.line, "Unterminated string."⟩, ?_, ?_⟩
    · simp only [string, h1, hend, if_true]
    · intro st' hr; cases hr
  · have hlt₁ : st₁.current < st₁.source.length := by
      simp only [isAtEnd, decide_eq_true_eq, not_le] at hend
      rw [h2, byteLen_eq_length ha] at hend
      rw [h2]
      omega
    have hadv : advance st₁ = some (st₁.source[st₁.current],
        { st₁ with current := st₁.current + 1 }) := by
      simp [advance, List.getElem?_eq_getElem hlt₁]
    have hs : string st = some (.ok (addTokenLiteral .string
        (.string (String.mk ((st₁.source.drop (st₁.start + 1)).take
          (st₁.current + 1 - 1 - (st₁.start + 1)))))
        { st₁ with current := st₁.current + 1 })) := by
      simp only [string, h1, hend, Bool.false_eq_true, if_false, hadv]
    refine ⟨_, hs, ?_⟩
    intro st' hr
    injection hr with hr
    subst hr
    simp only [addTokenLiteral]
    refine ⟨h2, by omega, ?_⟩
    rw [h2] at hlt₁
    omega

theorem scanToken_total (st : SState)
    (ha : asciiOnly st.source = true)
    (hnb : hasSlashStar st.source = false)
    (hlt : st.current < st.source.length) :
    ∃ r, scanToken st = some r ∧ ∀ st', r = Except.ok st' →
      st'.source = st.source ∧ st.current < st'.current ∧
        st'.current ≤ st.source.length := by
  have hbl := byteLen_eq_length ha
  have hg := List.getElem?_eq_getElem hlt
  have hadv : advance st = some (st.source[st.current],
      { st with current := st.current + 1 }) := by
    simp [advance, hg]
  simp only [scanToken, hadv]
  split
  case h_1 =>
    refine ⟨_, rfl, ?_⟩
    intro st' hr
    injection hr with hr
    subst hr
    refine ⟨rfl, ?_, ?_⟩ <;> simp [addToken, addTokenLiteral] <;> omega
  case h_2 =>
    refine ⟨_, rfl, ?_⟩
    intro st' hr
    injection hr with hr
    subst hr
    refine ⟨rfl, ?_, ?_⟩ <;> simp [addToken, addTokenLiteral] <;> omega
  case h_3 =>
    refine ⟨_, rfl, ?_⟩
    intro st' hr
    injection hr with hr
    subst hr
    refine ⟨rfl, ?_, ?_⟩ <;> simp [addToken, addTokenLiteral] <;> omega
  case h_4 =>
    refine ⟨_, rfl, ?_⟩
    intro st' hr
    injection hr with hr
    subst hr
    refine ⟨rfl, ?_, ?_⟩ <;> simp [addToken, addTokenLiteral] <;> omega
  case h_5 =>
    refine ⟨_, rfl, ?_⟩
    intro st' hr
    injection hr with hr
    subst hr
    refine ⟨rfl, ?_, ?_⟩ <;> simp [addToken, addTokenLiteral] <;> omega
  case h_6 =>
    refine ⟨_, rfl, ?_⟩
    intro st' hr
    injection hr with hr
    subst hr
    refine ⟨rfl, ?_, ?_⟩ <;> simp [addToken, addTokenLiteral] <;> omega
  case h_7 =>
    refine ⟨_, rfl, ?_⟩
    intro st' hr
    injection hr with hr
    subst hr
    refine ⟨rfl, ?_, ?_⟩ <;> simp [addToken, addTokenLiteral] <;> omega
  case h_8 =>
    refine ⟨_, rfl, ?_⟩
    intro st' hr
    injection hr with hr
    subst hr
    refine ⟨rfl, ?_, ?_⟩ <;> simp [addToken, addTokenLiteral] <;> omega
  case h_9 =>
    refine ⟨_, rfl, ?_⟩
    intro st' hr
    injection hr with hr
    subst hr
    refine ⟨rfl, ?_, ?_⟩ <;> simp [addToken, addTokenLiteral] <;> omega
  case h_10 =>
    refine ⟨_, rfl, ?_⟩
    intro st' hr
    injection hr with hr
    subst hr
    refine ⟨rfl, ?_, ?_⟩ <;> simp [addToken, addTokenLiteral] <;> omega
  case h_11 =>
    obtain ⟨m1, m2, m3, m4, m5, m6⟩ := matchesChar_spec '='
      { st with current := st.current + 1 } ha (by simp; omega)
    refine ⟨_, rfl, ?_⟩
    intro st' hr
    injection hr with hr
    subst hr
    refine ⟨m1, ?_, ?_⟩ <;> (simp at m5 m6; simp [addToken, addTokenLiteral]; omega)
  case h_12 =>
    obtain ⟨m1, m2, m3, m4, m5, m6⟩ := matchesChar_spec '='
      { st with current := st.current + 1 } ha (by simp; omega)
    refine ⟨_, rfl, ?_⟩
    intro st' hr
    injection hr with hr
    subst hr
    refine ⟨m1, ?_, ?_⟩ <;> (simp at m5 m6; simp [addToken, addTokenLiteral]; omega)
  case h_13 =>
    obtain ⟨m1, m2, m3, m4, m5, m6⟩ := matchesChar_spec '='
      { st with current := st.current + 1 } ha (by simp; omega)
    refine ⟨_, rfl, ?_⟩
    intro st' hr
    injection hr with hr
    subst hr
    refine ⟨m1, ?_, ?_⟩ <;> (simp at m5 m6; simp [addToken, addTokenLiteral]; omega)
  case h_14 =>
    obtain ⟨m1, m2, m3, m4, m5, m6⟩ := matchesChar_spec '='
      { st with current := st.current + 1 } ha (by simp; omega)
    refine ⟨_, rfl, ?_⟩
    intro st' hr
    injection hr with hr
    subst hr
    refine ⟨m1, ?_, ?_⟩ <;> (simp at m5 m6; simp [addToken, addTokenLiteral]; omega)
  case h_15 =>
    rename_i heq
    split
    · rename_i st₂ hm1
      obtain ⟨q1, q2, q3⟩ := @matchesChar_true '/'
        { st with current := st.current + 1 } st₂ ha hm1
      have hlt2 : st.current + 1 < st.source.length :=
        (List.getElem?_eq_some.mp q1).1
      obtain ⟨st₃, l1, l2, l3, l4, l5, l6⟩ := lineCommentLoop_total
        (byteLen st₂.source + 1) st₂ (by rw [q3]; exact ha)
        (by rw [q3, q2]; simp; omega)
        (by rw [byteLen_eq_length (by rw [q3]; exact ha)]; omega)
      refine ⟨.ok st₃, ?_, ?_⟩
      · rw [l1]
        rfl
      · intro st' hr
        injection hr with hr
        subst hr
        rw [q3] at l2 l6
        refine ⟨l2, ?_, ?_⟩ <;> (rw [q2] at l5; simp at l5 l6; omega)
    · rename_i st₂ hm1
      have hst₂ := matchesChar_false hm1
      subst hst₂
      split
      · rename_i st₃ hm2
        obtain ⟨q1, q2, q3⟩ := @matchesChar_true '*'
          { st with current := st.current + 1 } st₃ ha hm2
        exfalso
        refine hasSlashStar_false hnb st.current ⟨?_, ?_⟩
        · rw [hg, heq]
        · simpa using q1
      · rename_i st₃ hm2
        have hst₃ := matchesChar_false hm2
        subst hst₃
        refine ⟨_, rfl, ?_⟩
        intro st' hr
        injection hr with hr
        subst hr
        refine ⟨rfl, ?_, ?_⟩ <;> simp [addToken, addTokenLiteral] <;> omega
  case h_16 =>
    refine ⟨_, rfl, ?_⟩
    intro st' hr
    injection hr with hr
    subst hr
    refine ⟨rfl, ?_, ?_⟩ <;> simp <;> omega
  case h_17 =>
    refine ⟨_, rfl, ?_⟩
    intro st' hr
    injection hr with hr
    subst hr
    refine ⟨rfl, ?_, ?_⟩ <;> simp <;> omega
  case h_18 =>
    refine ⟨_, rfl, ?_⟩
    intro st' hr
    injection hr with hr
    subst hr
    refine ⟨rfl, ?_, ?_⟩ <;> simp <;> omega
  case h_19 =>
    refine ⟨_, rfl, ?_⟩
    intro st' hr
    injection hr with hr
    subst hr
    refine ⟨rfl, ?_, ?_⟩ <;> simp <;> omega
  case h_20 =>
    obtain ⟨r, hs, hok⟩ := string_total { st with current := st.current + 1 }
      ha (by simp; omega)
    refine ⟨r, hs, ?_⟩
    intro st' hr
    obtain ⟨e1, e2, e3⟩ := hok st' hr
    refine ⟨e1, ?_, ?_⟩ <;> (simp at e2 e3; omega)
  case h_21 =>
    by_cases hd : (st.source[st.current]).isDigit
    · rw [if_pos hd]
      obtain ⟨r, hn, hok⟩ := number_total { st with current := st.current + 1 }
        ha (by simp; omega)
      refine ⟨r, hn, ?_⟩
      intro st' hr
      obtain ⟨e1, e2, e3⟩ := hok st' hr
      refine ⟨e1, ?_, ?_⟩ <;> (simp at e2 e3; omega)
    · rw [if_neg hd]
      by_cases hl2 : (st.source[st.current]).isAlpha
      · rw [if_pos hl2]
        obtain ⟨stI, hi, i2, i3, i4⟩ := identifier_total
          { st with current := st.current + 1 } ha (by simp; omega)
        refine ⟨.ok stI, by rw [hi]; rfl, ?_⟩
        intro st' hr
        injection hr with hr
        subst hr
        refine ⟨i2, ?_, ?_⟩ <;> (simp at i3 i4; omega)
      · rw [if_neg hl2]
        refine ⟨_, rfl, ?_⟩
        intro st' hr
        cases hr

theorem scanLoop_total : ∀ (fuel : Nat) (st : SState),
    asciiOnly st.source = true → hasSlashStar st.source = false →
    st.current ≤ st.source.length →
    st.source.length + 1 - st.current ≤ fuel →
    (scanLoop fuel st).isSome = true := by
  intro fuel
  induction fuel with
  | zero => intro st _ _ hc hf; omega
  | succ fuel ih =>
    intro st ha hnb hc hf
    have hbl := byteLen_eq_length ha
    by_cases hend : isAtEnd st = true
    · simp [scanLoop, hend]
    · have hlt : st.current < st.source.length := by
        simp only [isAtEnd, decide_eq_true_eq, not_le] at hend
        omega
      have hend' : isAtEnd st = false := by
        simp only [isAtEnd, decide_eq_true_eq] at hend
        simp only [isAtEnd, decide_eq_false_iff_not, not_le]
        omega
      obtain ⟨r, hs, hok⟩ := scanToken_total { st with start := st.current }
        ha hnb hlt
      cases r with
      | error e => simp [scanLoop, hend', hs]
      | ok st' =>
        obtain ⟨e1, e2, e3⟩ := hok st' rfl
        simp only at e1 e2 e3
        have hrec := ih st' (by rw [e1]; exact ha) (by rw [e1]; exact hnb)
          (by rw [e1]; exact e3) (by rw [e1]; omega)
        simp [scanLoop, hend', hs, hrec]

end Scanner

/-- C9 counterexample: the all-ASCII source slash-star-star makes
scan_tokens panic (modelled as none): the block-comment loop exits at
the star, and the second of the two unconditional advances reads past
the end of the input, so the claimed totality on ASCII sources fails. -/
theorem scan_tokens_panics_on_ascii_source :
    Scanner.asciiOnly "/**".data = true ∧ Scanner.scanTokens "/**" = none :=
  ⟨by decide, by rfl⟩

/-- C9 amended: scan_tokens is total (returns a token list or a lexical
error and never panics) on all-ASCII sources that contain no
slash-star pair, i.e. that never enter the block-comment path; the
unguarded advances of that path can panic even on ASCII input, so the
original unconditional claim fails (see the counterexample). -/
theorem scan_tokens_total_on_ascii_without_block_comments (source : String)
    (ha : Scanner.asciiOnly source.data = true)
    (hnb : Scanner.hasSlashStar source.data = false) :
    (Scanner.scanTokens source).isSome = true := by
  unfold Scanner.scanTokens
  exact Scanner.scanLoop_total _ (Scanner.SState.new source.data) ha hnb
    (by simp [Scanner.SState.new])
    (by simp [Scanner.SState.new, Scanner.byteLen_eq_length ha])

/-- C9 witness: scan_tokens succeeds on a small ASCII program with no
block comment. -/
theorem scan_tokens_total_witness :
    (Scanner.scanTokens "var x = 1;").isSome = true :=
  scan_tokens_total_on_ascii_without_block_comments "var x = 1;"
    (by decide) (by decide)

namespace Parser

/-- parser.rs: the Parser fields. -/
structure PState where
  tokens : List Token
  current : Nat

/-- parser.rs: Parser::new. -/
def PState.new (tokens : List Token) : PState :=
  { tokens := tokens, current := 0 }

/-- parser.rs: peek — tokens.get(current).unwrap(); none = panic. -/
def peek (st : PState) : Option Token := st.tokens[st.current]?

/-- parser.rs: previous — tokens.get(current - 1).unwrap(); none models
the panic (including the usize underflow at current = 0). -/
def previous (st : PState) : Option Token :=
  if st.current = 0 then none else st.tokens[st.current - 1]?

/-- parser.rs: is_at_end. -/
def isAtEnd (st : PState) : Option Bool :=
  (peek st).map (fun t => decide (t.ttype = .eof))

/-- parser.rs: check. -/
def check (tt : TokenType) (st : PState) : Option Bool :=
  match isAtEnd st with
  | none => none
  | some true => some false
  | some false => (peek st).map (fun t => decide (t.ttype = tt))

/-- parser.rs: advance — bump current unless at end, return previous. -/
def advance (st : PState) : Option (Token × PState) :=
  match isAtEnd st with
  | none => none
  | some b =>
    let st' := if b then st else { st with current := st.current + 1 }
    (previous st').map (fun t => (t, st'))

/-- parser.rs: matches — checks each type, advancing on the first hit. -/
def matchesTT (tts : List TokenType) (st : PState) : Option (Bool × PState) :=
  match tts with
  | [] => some (false, st)
  | tt :: rest =>
    match check tt st with
    | none => none
    | some true =>
      match advance st with
      | none => none
      | some (_, st') => some (true, st')
    | some false => matchesTT rest st

/-- parser.rs: consume — advance if of the given type, else error. -/
def consume (tt : TokenType) (message : String) (st : PState) :
    Option (Except ParseError Token × PState) :=
  match check tt st with
  | none => none
  | some true =>
    match advance st with
    | none => none
    | some (t, st') => some (.ok t, st')
  | some false =>
    match peek st with
    | none => none
    | some t => some (.error ⟨t, message⟩, st)

theorem advance_notEnd {st : PState} {t : Token} {st' : PState}
    (hend : isAtEnd st = some false) (h : advance st = some (t, st')) :
    st'.tokens = st.tokens ∧ st'.current = st.current + 1 := by
  unfold advance at h
  split at h
  · simp at h
  · rename_i b heq
    have hb : b = false := by simpa using hend.symm.trans heq
    subst hb
    cases hp : previous { st with current := st.current + 1 } with
    | none => simp [hp] at h
    | some u =>
      simp [hp] at h
      obtain ⟨-, h2⟩ := h
      first
      | (rw [h2]; exact ⟨rfl, rfl⟩)
      | (rw [← h2]; exact ⟨rfl, rfl⟩)

theorem isAtEnd_false_lt {st : PState} (hend : isAtEnd st = some false) :
    st.current < st.tokens.length := by
  unfold isAtEnd peek at hend
  cases hp : st.tokens[st.current]? with
  | none => rw [hp] at hend; simp at hend
  | some t => exact (List.getElem?_eq_some.mp hp).1

/-- parser.rs: the while loop of synchronise; fuel bounds the iteration
count (synchronise passes tokens.length + 1, which always suffices since
each iteration advances the cursor below the token count). -/
def synchroniseLoop : Nat → PState → Option PState
  | 0, _ => none
  | fuel + 1, st =>
    match isAtEnd st with
    | none => none
    | some true => some st
    | some false =>
      match previous st with
      | none => none
      | some prev =>
        if prev.ttype = .semicolon then some st
        else
          match peek st with
          | none => none
          | some t =>
            match t.ttype with
            | .class_ | .fun_ | .var | .for_ | .if_ | .while_ | .print
            | .return_ => some st
            | _ =>
              match advance st with
              | none => none
              | some (_, st') => synchroniseLoop fuel st'

/-- parser.rs: synchronise — advance once, then skip to a boundary. -/
def synchronise (st : PState) : Option PState :=
  match advance st with
  | none => none
  | some (_, st₁) => synchroniseLoop (st₁.tokens.length + 1) st₁

/-- The ? operator of the Rust parser methods: propagate the error
together with the parser state reached when it was raised. -/
def pbind {α β : Type} (x : Option (Except ParseError α × PState))
    (f : α → PState → Option (Except ParseError β × PState)) :
    Option (Except ParseError β × PState) :=
  match x with
  | none => none
  | some (.error e, st) => some (.error e, st)
  | some (.ok a, st) => f a st

/-- if self.matches(&[..]) { thenF } else { elseF }. -/
def pmatch {α : Type} (tts : List TokenType) (st : PState)
    (thenF : PState → Option (Except ParseError α × PState))
    (elseF : PState → Option (Except ParseError α × PState)) :
    Option (Except ParseError α × PState) :=
  match matchesTT tts st with
  | none => none
  | some (true, st) => thenF st
  | some (false, st) => elseF st

/-- parser.rs: the shared shape of the binary/logic precedence loops
(equality, comparison, term, factor, or, and): keep matching one of the
operator tokens and folding the right operand in via mk. -/
def binLoop : Nat → (PState → Option (Except ParseError Expr × PState)) →
    List TokenType → (Expr → Token → Expr → Expr) → Expr → PState →
    Option (Except ParseError Expr × PState)
  | 0, _, _, _, _, _ => none
  | fuel + 1, sub, ops, mk, expr, st =>
    match matchesTT ops st with
    | none => none
    | some (false, st) => some (.ok expr, st)
    | some (true, st) =>
      match previous st with
      | none => none
      | some operator =>
        pbind (sub st) fun right st =>
          binLoop fuel sub ops mk (mk expr operator right) st

mutual

/-- parser.rs: declaration — funDecl | varDecl | statement, with
synchronise on a failed statement before propagating its error. -/
def declaration : Nat → PState → Option (Except ParseError Stmt × PState)
  | 0, _ => none
  | fuel + 1, st =>
    pmatch [.fun_] st (fun st => function fuel "function" st) fun st =>
    pmatch [.var] st (fun st => varDeclaration fuel st) fun st =>
      match statement fuel st with
      | none => none
      | some (.ok r, st') => some (.ok r, st')
      | some (.error e, st') =>
        match synchronise st' with
        | none => none
        | some st'' => some (.error e, st'')

/-- parser.rs: statement. -/
def statement : Nat → PState → Option (Except ParseError Stmt × PState)
  | 0, _ => none
  | fuel + 1, st =>
    pmatch [.print] st (fun st => printStatement fuel st) fun st =>
    pmatch [.return_] st (fun st => returnStatement fuel st) fun st =>
    pmatch [.while_] st (fun st => whileStatement fuel st) fun st =>
    pmatch [.leftBrace] st
      (fun st => pbind (block fuel st) fun stmts st =>
        some (.ok (.blockStmt stmts), st)) fun st =>
    pmatch [.if_] st (fun st => ifStatement fuel st) fun st =>
    pmatch [.for_] st (fun st => forStatement fuel st) fun st =>
      expressionStatement fuel st

/-- parser.rs: block — declarations until a right brace or Eof, then the
consume of the right brace. -/
def block : Nat → PState → Option (Except ParseError (List Stmt) × PState)
  | 0, _ => none
  | fuel + 1, st => blockLoop fuel [] st

def blockLoop : Nat → List Stmt → PState →
    Option (Except ParseError (List Stmt) × PState)
  | 0, _, _ => none
  | fuel + 1, stmts, st =>
    match check .rightBrace st with
    | none => none
    | some true =>
      pbind (consume .rightBrace "Expect \x7d after block." st) fun _ st =>
        some (.ok stmts, st)
    | some false =>
      match isAtEnd st with
      | none => none
      | some true =>
        pbind (consume .rightBrace "Expect \x7d after block." st) fun _ st =>
          some (.ok stmts, st)
      | some false =>
        pbind (declaration fuel st) fun d st =>
          blockLoop fuel (stmts ++ [d]) st

/-- parser.rs: while_statement. -/
def whileStatement : Nat → PState → Option (Except ParseError Stmt × PState)
  | 0, _ => none
  | fuel + 1, st =>
    pbind (consume .leftParen "Expect ( after 'while'." st) fun _ st =>
    pbind (expression fuel st) fun condition st =>
    pbind (consume .rightParen "Expect ) after 'while'." st) fun _ st =>
    pbind (statement fuel st) fun body st =>
      some (.ok (.whileStmt condition body), st)

/-- parser.rs: if_statement — the missing else is encoded as
ExprStmt(LitExpr(Null)). -/
def ifStatement : Nat → PState → Option (Except ParseError Stmt × PState)
  | 0, _ => none
  | fuel + 1, st =>
    pbind (consume .leftParen "Expect ( after if" st) fun _ st =>
    pbind (expression fuel st) fun condition st =>
    pbind (consume .rightParen "Expect ) after condition" st) fun _ st =>
    pbind (statement fuel st) fun thenBranch st =>
    pmatch [.else_] st
      (fun st => pbind (statement fuel st) fun elseBranch st =>
        some (.ok (.ifStmt condition thenBranch elseBranch), st))
      fun st =>
        some (.ok (.ifStmt condition thenBranch (.exprStmt (.litExpr .null))), st)

/-- parser.rs: the pure desugaring tail of for_statement — append the
increment to the body, wrap in a While (literal-true condition when
absent), and put the initialiser in front inside a Block when present. -/
def forDesugar (initialiser : Option Stmt) (condition : Option Expr)
    (increment : Option Expr) (body : Stmt) : Stmt :=
  let body := match increment with
    | some inc => Stmt.blockStmt [body, .exprStmt inc]
    | none => body
  let body := match condition with
    | none => Stmt.whileStmt (.litExpr (.bool true)) body
    | some cond => Stmt.whileStmt cond body
  match initialiser with
  | some init => Stmt.blockStmt [init, body]
  | none => body

/-- parser.rs: for_statement — parse the three clauses and the body and
desugar to block + while (forDesugar); no For node is ever built. -/
def forStatement : Nat → PState → Option (Except ParseError Stmt × PState)
  | 0, _ => none
  | fuel + 1, st =>
    pbind (consume .leftParen "Expect '(' after for statement" st) fun _ st =>
    let afterInit := fun (initialiser : Option Stmt) st =>
      let afterCond := fun (condition : Option Expr) st =>
        pbind (consume .semicolon "Expect ; after loop condition" st) fun _ st =>
        let afterInc := fun (increment : Option Expr) st =>
          pbind (consume .rightParen "Expect ) after for clauses" st) fun _ st =>
          pbind (statement fuel st) fun body st =>
            some (.ok (forDesugar initialiser condition increment body), st)
        match check .rightParen st with
        | none => none
        | some false =>
          pbind (expression fuel st) fun inc st => afterInc (some inc) st
        | some true => afterInc none st
      match check .semicolon st with
      | none => none
      | some false =>
        pbind (expression fuel st) fun cond st => afterCond (some cond) st
      | some true => afterCond none st
    pmatch [.semicolon] st (fun st => afterInit none st) fun st =>
    pmatch [.var] st
      (fun st => pbind (varDeclaration fuel st) fun vd st =>
        afterInit (some vd) st)
      fun st =>
        pbind (expressionStatement fuel st) fun es st =>
          afterInit (some es) st

/-- parser.rs: print_statement. -/
def printStatement : Nat → PState → Option (Except ParseError Stmt × PState)
  | 0, _ => none
  | fuel + 1, st =>
    pbind (expression fuel st) fun value st =>
    pbind (consume .semicolon "Expect ';' after value" st) fun _ st =>
      some (.ok (.printStmt value), st)

/-- parser.rs: return_statement — keyword is previous(), value defaults
to LitExpr(Null) when a semicolon follows directly. -/
def returnStatement : Nat → PState → Option (Except ParseError Stmt × PState)
  | 0, _ => none
  | fuel + 1, st =>
    match previous st with
    | none => none
    | some keyword =>
      let finish := fun (v : Expr) st =>
        pbind (consume .semicolon "Expect ';' after return value" st) fun _ st =>
          some (.ok (Stmt.returnStmt keyword v), st)
      match check .semicolon st with
      | none => none
      | some true => finish (.litExpr .null) st
      | some false => pbind (expression fuel st) fun v st => finish v st

/-- parser.rs: var_declaration. -/
def varDeclaration : Nat → PState → Option (Except ParseError Stmt × PState)
  | 0, _ => none
  | fuel + 1, st =>
    pbind (consume .identifier "Expect variable name" st) fun name st =>
    let finish := fun (init : Expr) st =>
      pbind (consume .semicolon "Expect ; after variable declaration." st)
        fun _ st => some (.ok (Stmt.varDeclStmt name init), st)
    pmatch [.equal] st
      (fun st => pbind (expression fuel st) fun init st => finish init st)
      fun st => finish (.litExpr .null) st

/-- parser.rs: function(kind). -/
def function : Nat → String → PState →
    Option (Except ParseError Stmt × PState)
  | 0, _, _ => none
  | fuel + 1, kind, st =>
    pbind (consume .identifier ("Expect " ++ kind ++ " name") st) fun name st =>
    pbind (consume .leftParen ("Expect '(' after " ++ kind ++ " name") st)
      fun _ st =>
    let finish := fun (parameters : List Token) st =>
      pbind (consume .rightParen "Expect ')' after parameters" st) fun _ st =>
      pbind (consume .leftBrace ("Expect '\x7b' before " ++ kind ++ " body") st)
        fun _ st =>
      pbind (block fuel st) fun body st =>
        some (.ok (Stmt.funcDeclStmt (.mk name parameters body)), st)
    match check .rightParen st with
    | none => none
    | some true => finish [] st
    | some false =>
      pbind (parametersLoop fuel [] st) fun params st => finish params st

/-- parser.rs: the parameter loop of function() — note the 255 check
happens after a comma was consumed. -/
def parametersLoop : Nat → List Token → PState →
    Option (Except ParseError (List Token) × PState)
  | 0, _, _ => none
  | fuel + 1, params, st =>
    pbind (consume .identifier "Expect identifier name" st) fun p st =>
    let params := params ++ [p]
    match matchesTT [.comma] st with
    | none => none
    | some (false, st) => some (.ok params, st)
    | some (true, st) =>
      if params.length ≥ 255 then
        match peek st with
        | none => none
        | some t =>
          some (.error ⟨t, "Can't have more than 255 parameters"⟩, st)
      else parametersLoop fuel params st

/-- parser.rs: expression_statement. -/
def expressionStatement : Nat → PState →
    Option (Except ParseError Stmt × PState)
  | 0, _ => none
  | fuel + 1, st =>
    pbind (expression fuel st) fun value st =>
    pbind (consume .semicolon "Expect ';' after value" st) fun _ st =>
      some (.ok (.exprStmt value), st)

/-- parser.rs: expression → assignment. -/
def expression : Nat → PState → Option (Except ParseError Expr × PState)
  | 0, _ => none
  | fuel + 1, st => assignment fuel st

/-- parser.rs: assignment — right-associative; a non-Variable target is
an "Invalid assignment target." error at previous(). -/
def assignment : Nat → PState → Option (Except ParseError Expr × PState)
  | 0, _ => none
  | fuel + 1, st =>
    pbind (orExpr fuel st) fun expr st =>
    pmatch [.equal] st
      (fun st =>
        pbind (assignment fuel st) fun value st =>
        match expr with
        | .varExpr name => some (.ok (.assignExpr name value), st)
        | _ =>
          match previous st with
          | none => none
          | some prev =>
            some (.error ⟨prev, "Invalid assignment target."⟩, st))
      fun st => some (.ok expr, st)

/-- parser.rs: or. -/
def orExpr : Nat → PState → Option (Except ParseError Expr × PState)
  | 0, _ => none
  | fuel + 1, st =>
    pbind (andExpr fuel st) fun expr st =>
      binLoop fuel (andExpr fuel) [.or] .logicExpr expr st

/-- parser.rs: and. -/
def andExpr : Nat → PState → Option (Except ParseError Expr × PState)
  | 0, _ => none
  | fuel + 1, st =>
    pbind (equality fuel st) fun expr st =>
      binLoop fuel (equality fuel) [.and] .logicExpr expr st

/-- parser.rs: equality. -/
def equality : Nat → PState → Option (Except ParseError Expr × PState)
  | 0, _ => none
  | fuel + 1, st =>
    pbind (comparison fuel st) fun expr st =>
      binLoop fuel (comparison fuel) [.bangEqual, .equalEqual] .binaryExpr
        expr st

/-- parser.rs: comparison. -/
def comparison : Nat → PState → Option (Except ParseError Expr × PState)
  | 0, _ => none
  | fuel + 1, st =>
    pbind (term fuel st) fun expr st =>
      binLoop fuel (term fuel) [.greater, .greaterEqual, .less, .lessEqual]
        .binaryExpr expr st

/-- parser.rs: term. -/
def term : Nat → PState → Option (Except ParseError Expr × PState)
  | 0, _ => none
  | fuel + 1, st =>
    pbind (factor fuel st) fun expr st =>
      binLoop fuel (factor fuel) [.plus, .minus] .binaryExpr expr st

/-- parser.rs: factor. -/
def factor : Nat → PState → Option (Except ParseError Expr × PState)
  | 0, _ => none
  | fuel + 1, st =>
    pbind (unary fuel st) fun expr st =>
      binLoop fuel (unary fuel) [.star, .slash] .binaryExpr expr st

/-- parser.rs: unary. -/
def unary : Nat → PState → Option (Except ParseError Expr × PState)
  | 0, _ => none
  | fuel + 1, st =>
    pmatch [.bang, .minus] st
      (fun st =>
        match previous st with
        | none => none
        | some operator =>
          pbind (unary fuel st) fun right st =>
            some (.ok (.unaryExpr operator right), st))
      fun st => call fuel st

/-- parser.rs: call. -/
def call : Nat → PState → Option (Except ParseError Expr × PState)
  | 0, _ => none
  | fuel + 1, st =>
    pbind (primary fuel st) fun expr st => callLoop fuel expr st

def callLoop : Nat → Expr → PState →
    Option (Except ParseError Expr × PState)
  | 0, _, _ => none
  | fuel + 1, expr, st =>
    pmatch [.leftParen] st
      (fun st => pbind (argumentsF fuel expr st) fun expr st =>
        callLoop fuel expr st)
      fun st => some (.ok expr, st)

/-- parser.rs: arguments(callee) — the 255-argument overflow is kept as
a value and only raised after the right paren was consumed. -/
def argumentsF : Nat → Expr → PState →
    Option (Except ParseError Expr × PState)
  | 0, _, _ => none
  | fuel + 1, callee, st =>
    let finish := fun (tryArgs : Except ParseError (Option (List Expr))) st =>
      pbind (consume .rightParen "Expect ')' after arguments" st)
        fun paren st =>
        match tryArgs with
        | .ok arguments => some (.ok (Expr.callExpr callee paren arguments), st)
        | .error e => some (.error e, st)
    match check .rightParen st with
    | none => none
    | some false =>
      pbind (argumentsLoop fuel [] st) fun tryArgs st => finish tryArgs st
    | some true => finish (.ok none) st

def argumentsLoop : Nat → List Expr → PState →
    Option (Except ParseError (Except ParseError (Option (List Expr))) × PState)
  | 0, _, _ => none
  | fuel + 1, args, st =>
    if args.length ≥ 255 then
      match peek st with
      | none => none
      | some t =>
        some (.ok (.error ⟨t, "Can't have more than 255 arguments"⟩), st)
    else
      pbind (expression fuel st) fun e st =>
      let args := args ++ [e]
      match matchesTT [.comma] st with
      | none => none
      | some (false, st) => some (.ok (.ok (some args)), st)
      | some (true, st) => argumentsLoop fuel args st

/-- parser.rs: primary. -/
def primary : Nat → PState → Option (Except ParseError Expr × PState)
  | 0, _ => none
  | fuel + 1, st =>
    pmatch [.false_] st
      (fun st => some (.ok (.litExpr (.bool false)), st)) fun st =>
    pmatch [.true_] st
      (fun st => some (.ok (.litExpr (.bool true)), st)) fun st =>
    pmatch [.nil] st
      (fun st => some (.ok (.litExpr .null), st)) fun st =>
    pmatch [.number, .string] st
      (fun st =>
        match previous st with
        | none => none
        | some t => some (.ok (.litExpr t.literal), st)) fun st =>
    pmatch [.identifier] st
      (fun st =>
        match previous st with
        | none => none
        | some t => some (.ok (.varExpr t), st)) fun st =>
    pmatch [.leftParen] st
      (fun st =>
        pbind (expression fuel st) fun e st =>
        pbind (consume .rightParen "Expect ) after expression" st) fun _ st =>
          some (.ok (.groupingExpr e), st))
      fun st =>
        match peek st with
        | none => none
        | some t => some (.error ⟨t, "Expect expression."⟩, st)

end

/-- parser.rs: the while loop of parse. -/
def parseLoop : Nat → List Stmt → PState →
    Option (Except ParseError (List Stmt) × PState)
  | 0, _, _ => none
  | fuel + 1, stmts, st =>
    match isAtEnd st with
    | none => none
    | some true => some (.ok stmts, st)
    | some false =>
      pbind (declaration fuel st) fun d st => parseLoop fuel (stmts ++ [d]) st

/-- parser.rs: parse. -/
def parse (fuel : Nat) (tokens : List Token) :
    Option (Except ParseError (List Stmt) × PState) :=
  parseLoop fuel [] (PState.new tokens)

mutual

/-- No For node anywhere in the statement tree the parser builds
(descending into block bodies, if/while branches and function-declaration
bodies; literals carried inside tokens are opaque inputs to the parser
and are not parser-built nodes). -/
def stmtNoFor : Stmt → Bool
  | .exprStmt _ => true
  | .funcDeclStmt (.mk _ _ body) => stmtsNoFor body
  | .printStmt _ => true
  | .forStmt _ _ _ _ _ => false
  | .ifStmt _ t e => stmtNoFor t && stmtNoFor e
  | .whileStmt _ b => stmtNoFor b
  | .varDeclStmt _ _ => true
  | .returnStmt _ _ => true
  | .blockStmt ss => stmtsNoFor ss

def stmtsNoFor : List Stmt → Bool
  | [] => true
  | s :: ss => stmtNoFor s && stmtsNoFor ss

end

def isVarDeclStmt : Stmt → Bool
  | .varDeclStmt _ _ => true
  | _ => false

def isExprStmtShape : Stmt → Bool
  | .exprStmt _ => true
  | _ => false

/-- The desugared shape of a for loop: a While, optionally wrapped in a
two-statement Block whose first element is the initialiser (a var
declaration or an expression statement). -/
def isDesugaredForShape : Stmt → Bool
  | .whileStmt _ _ => true
  | .blockStmt [i, .whileStmt _ _] => isVarDeclStmt i || isExprStmtShape i
  | _ => false

theorem stmtsNoFor_append (xs : List Stmt) (d : Stmt) :
    stmtsNoFor (xs ++ [d]) = (stmtsNoFor xs && stmtNoFor d) := by
  induction xs with
  | nil => simp [stmtsNoFor]
  | cons x xs ih => simp [stmtsNoFor, ih, Bool.and_assoc]

theorem forDesugar_spec (init : Option Stmt) (cond : Option Expr)
    (inc : Option Expr) (body : Stmt) (hb : stmtNoFor body = true)
    (hi : ∀ i, init = some i → stmtNoFor i = true ∧
      (isVarDeclStmt i || isExprStmtShape i) = true) :
    stmtNoFor (forDesugar init cond inc body) = true ∧
      isDesugaredForShape (forDesugar init cond inc body) = true := by
  cases init with
  | none =>
    cases cond <;> cases inc <;>
      simp_all [forDesugar, stmtNoFor, stmtsNoFor, isDesugaredForShape]
  | some i =>
    obtain ⟨hi1, hi2⟩ := hi i rfl
    cases cond <;> cases inc <;>
      simp_all [forDesugar, stmtNoFor, stmtsNoFor, isDesugaredForShape]

theorem pbind_inv {α β : Type} {x : Option (Except ParseError α × PState)}
    {f : α → PState → Option (Except ParseError β × PState)} {b : β}
    {st' : PState} (h : pbind x f = some (.ok b, st')) :
    ∃ a stm, x = some (.ok a, stm) ∧ f a stm = some (.ok b, st') := by
  match x with
  | none => simp [pbind] at h
  | some (.error e, stm) => simp [pbind] at h
  | some (.ok a, stm) => exact ⟨a, stm, rfl, h⟩

theorem pmatch_inv {α : Type} {tts : List TokenType} {st : PState}
    {thenF elseF : PState → Option (Except ParseError α × PState)} {b : α}
    {st' : PState} (h : pmatch tts st thenF elseF = some (.ok b, st')) :
    (∃ stm, matchesTT tts st = some (true, stm) ∧
      thenF stm = some (.ok b, st')) ∨
    (∃ stm, matchesTT tts st = some (false, stm) ∧
      elseF stm = some (.ok b, st')) := by
  unfold pmatch at h
  split at h
  · simp at h
  · rename_i stm heq
    exact .inl ⟨stm, heq, h⟩
  · rename_i stm heq
    exact .inr ⟨stm, heq, h⟩

theorem okPair_inv {α : Type} {a r : α} {stm st' : PState}
    (h : (some (Except.ok a, stm) :
      Option (Except ParseError α × PState)) = some (.ok r, st')) :
    a = r ∧ stm = st' := by
  simp only [Option.some.injEq, Prod.mk.injEq, Except.ok.injEq] at h
  exact h

theorem noFor_all : ∀ (fuel : Nat),
    (∀ st r st', declaration fuel st = some (.ok r, st') →
      stmtNoFor r = true) ∧
    (∀ kind st r st', function fuel kind st = some (.ok r, st') →
      stmtNoFor r = true) ∧
    (∀ st r st', varDeclaration fuel st = some (.ok r, st') →
      stmtNoFor r = true ∧ isVarDeclStmt r = true) ∧
    (∀ st r st', statement fuel st = some (.ok r, st') →
      stmtNoFor r = true) ∧
    (∀ st r st', printStatement fuel st = some (.ok r, st') →
      stmtNoFor r = true) ∧
    (∀ st r st', returnStatement fuel st = some (.ok r, st') →
      stmtNoFor r = true) ∧
    (∀ st r st', whileStatement fuel st = some (.ok r, st') →
      stmtNoFor r = true) ∧
    (∀ st r st', ifStatement fuel st = some (.ok r, st') →
      stmtNoFor r = true) ∧
    (∀ st r st', forStatement fuel st = some (.ok r, st') →
      stmtNoFor r = true ∧ isDesugaredForShape r = true) ∧
    (∀ st r st', expressionStatement fuel st = some (.ok r, st') →
      stmtNoFor r = true ∧ isExprStmtShape r = true) ∧
    (∀ st r st', block fuel st = some (.ok r, st') →
      stmtsNoFor r = true) ∧
    (∀ acc st r st', blockLoop fuel acc st = some (.ok r, st') →
      stmtsNoFor acc = true → stmtsNoFor r = true) := by
  intro fuel
  induction fuel with
  | zero =>
    refine ⟨?_, ?_, ?_, ?_, ?_, ?_, ?_, ?_, ?_, ?_, ?_, ?_⟩ <;> intros <;>
      simp_all [declaration, function, varDeclaration, statement,
        printStatement, returnStatement, whileStatement, ifStatement,
        forStatement, expressionStatement, block, blockLoop]
  | succ fuel ih =>
    obtain ⟨ihdecl, ihfun, ihvar, ihstmt, ihprint, ihret, ihwhile, ihif,
      ihfor, ihexpr, ihblock, ihblockLoop⟩ := ih
    refine ⟨?_, ?_, ?_, ?_, ?_, ?_, ?_, ?_, ?_, ?_, ?_, ?_⟩
    -- declaration
    · intro st r st' h
      simp only [declaration] at h
      rcases pmatch_inv h with ⟨s1, -, h⟩ | ⟨s1, -, h⟩
      · exact ihfun _ _ _ _ h
      rcases pmatch_inv h with ⟨s2, -, h⟩ | ⟨s2, -, h⟩
      · exact (ihvar _ _ _ h).1
      split at h
      · simp at h
      · rename_i r0 st0 heq
        obtain ⟨h1, -⟩ := okPair_inv h
        subst h1
        exact ihstmt _ _ _ heq
      · split at h
        · simp at h
        · simp at h
    -- function
    · intro kind st r st' h
      simp only [function] at h
      obtain ⟨name, s1, -, h⟩ := pbind_inv h
      obtain ⟨-, s2, -, h⟩ := pbind_inv h
      have finish : ∀ (params : List Token) stm,
          pbind (consume .rightParen "Expect ')' after parameters" stm)
            (fun _ st =>
              pbind (consume .leftBrace
                ("Expect '\x7b' before " ++ kind ++ " body") st) fun _ st =>
              pbind (block fuel st) fun body st =>
                some (.ok (Stmt.funcDeclStmt (.mk name params body)), st)) =
            some (.ok r, st') → stmtNoFor r = true := by
        intro params stm hf
        obtain ⟨-, s3, -, hf⟩ := pbind_inv hf
        obtain ⟨-, s4, -, hf⟩ := pbind_inv hf
        obtain ⟨body, s5, hb, hf⟩ := pbind_inv hf
        obtain ⟨h1, -⟩ := okPair_inv hf
        subst h1
        simpa [stmtNoFor] using ihblock _ _ _ hb
      split at h
      · simp at h
      · exact finish [] s2 h
      · obtain ⟨params, s3, -, h⟩ := pbind_inv h
        exact finish params s3 h
    -- varDeclaration
    · intro st r st' h
      simp only [varDeclaration] at h
      obtain ⟨name, s1, -, h⟩ := pbind_inv h
      rcases pmatch_inv h with ⟨s2, -, h⟩ | ⟨s2, -, h⟩
      · obtain ⟨init, s3, -, h⟩ := pbind_inv h
        obtain ⟨-, s4, -, h⟩ := pbind_inv h
        obtain ⟨h1, -⟩ := okPair_inv h
        subst h1
        exact ⟨rfl, rfl⟩
      · obtain ⟨-, s4, -, h⟩ := pbind_inv h
        obtain ⟨h1, -⟩ := okPair_inv h
        subst h1
        exact ⟨rfl, rfl⟩
    -- statement
    · intro st r st' h
      simp only [statement] at h
      rcases pmatch_inv h with ⟨s1, -, h⟩ | ⟨s1, -, h⟩
      · exact ihprint _ _ _ h
      rcases pmatch_inv h with ⟨s2, -, h⟩ | ⟨s2, -, h⟩
      · exact ihret _ _ _ h
      rcases pmatch_inv h with ⟨s3, -, h⟩ | ⟨s3, -, h⟩
      · exact ihwhile _ _ _ h
      rcases pmatch_inv h with ⟨s4, -, h⟩ | ⟨s4, -, h⟩
      · obtain ⟨ss, s5, hb, h⟩ := pbind_inv h
        obtain ⟨h1, -⟩ := okPair_inv h
        subst h1
        simpa [stmtNoFor] using ihblock _ _ _ hb
      rcases pmatch_inv h with ⟨s5, -, h⟩ | ⟨s5, -, h⟩
      · exact ihif _ _ _ h
      rcases pmatch_inv h with ⟨s6, -, h⟩ | ⟨s6, -, h⟩
      · exact (ihfor _ _ _ h).1
      · exact (ihexpr _ _ _ h).1
    -- printStatement
    · intro st r st' h
      simp only [printStatement] at h
      obtain ⟨v, s1, -, h⟩ := pbind_inv h
      obtain ⟨-, s2, -, h⟩ := pbind_inv h
      obtain ⟨h1, -⟩ := okPair_inv h
      subst h1
      rfl
    -- returnStatement
    · intro st r st' h
      simp only [returnStatement] at h
      split at h
      · simp at h
      · split at h
        · simp at h
        · obtain ⟨-, s2, -, h⟩ := pbind_inv h
          obtain ⟨h1, -⟩ := okPair_inv h
          subst h1
          rfl
        · obtain ⟨v, s2, -, h⟩ := pbind_inv h
          obtain ⟨-, s3, -, h⟩ := pbind_inv h
          obtain ⟨h1, -⟩ := okPair_inv h
          subst h1
          rfl
    -- whileStatement
    · intro st r st' h
      simp only [whileStatement] at h
      obtain ⟨-, s1, -, h⟩ := pbind_inv h
      obtain ⟨cond, s2, -, h⟩ := pbind_inv h
      obtain ⟨-, s3, -, h⟩ := pbind_inv h
      obtain ⟨body, s4, hb, h⟩ := pbind_inv h
      obtain ⟨h1, -⟩ := okPair_inv h
      subst h1
      simpa [stmtNoFor] using ihstmt _ _ _ hb
    -- ifStatement
    · intro st r st' h
      simp only [ifStatement] at h
      obtain ⟨-, s1, -, h⟩ := pbind_inv h
      obtain ⟨cond, s2, -, h⟩ := pbind_inv h
      obtain ⟨-, s3, -, h⟩ := pbind_inv h
      obtain ⟨tb, s4, ht, h⟩ := pbind_inv h
      rcases pmatch_inv h with ⟨s5, -, h⟩ | ⟨s5, -, h⟩
      · obtain ⟨eb, s6, he, h⟩ := pbind_inv h
        obtain ⟨h1, -⟩ := okPair_inv h
        subst h1
        simp [stmtNoFor, ihstmt _ _ _ ht, ihstmt _ _ _ he]
      · obtain ⟨h1, -⟩ := okPair_inv h
        subst h1
        simp [stmtNoFor, ihstmt _ _ _ ht]
    -- forStatement
    · intro st r st' h
      simp only [forStatement] at h
      obtain ⟨-, s1, -, h⟩ := pbind_inv h
      rcases pmatch_inv h with ⟨s2, -, h⟩ | ⟨s2, -, h⟩
      · split at h
        · simp at h
        · obtain ⟨cond, s3, -, h⟩ := pbind_inv h
          obtain ⟨-, s4, -, h⟩ := pbind_inv h
          split at h
          · simp at h
          · obtain ⟨inc, s5, -, h⟩ := pbind_inv h
            obtain ⟨-, s6, -, h⟩ := pbind_inv h
            obtain ⟨body, s7, hbody, h⟩ := pbind_inv h
            obtain ⟨h1, -⟩ := okPair_inv h
            subst h1
            exact forDesugar_spec _ _ _ _ (ihstmt _ _ _ hbody)
              (fun i hi => by cases hi)
          · obtain ⟨-, s6, -, h⟩ := pbind_inv h
            obtain ⟨body, s7, hbody, h⟩ := pbind_inv h
            obtain ⟨h1, -⟩ := okPair_inv h
            subst h1
            exact forDesugar_spec _ _ _ _ (ihstmt _ _ _ hbody)
              (fun i hi => by cases hi)
        · obtain ⟨-, s4, -, h⟩ := pbind_inv h
          split at h
          · simp at h
          · obtain ⟨inc, s5, -, h⟩ := pbind_inv h
            obtain ⟨-, s6, -, h⟩ := pbind_inv h
            obtain ⟨body, s7, hbody, h⟩ := pbind_inv h
            obtain ⟨h1, -⟩ := okPair_inv h
            subst h1
            exact forDesugar_spec _ _ _ _ (ihstmt _ _ _ hbody)
              (fun i hi => by cases hi)
          · obtain ⟨-, s6, -, h⟩ := pbind_inv h
            obtain ⟨body, s7, hbody, h⟩ := pbind_inv h
            obtain ⟨h1, -⟩ := okPair_inv h
            subst h1
            exact forDesugar_spec _ _ _ _ (ihstmt _ _ _ hbody)
              (fun i hi => by cases hi)
      rcases pmatch_inv h with ⟨s3, -, h⟩ | ⟨s3, -, h⟩
      · obtain ⟨vd, s4, hvd, h⟩ := pbind_inv h
        have hvd' := ihvar _ _ _ hvd
        split at h
        · simp at h
        · obtain ⟨cond, s5, -, h⟩ := pbind_inv h
          obtain ⟨-, s6, -, h⟩ := pbind_inv h
          split at h
          · simp at h
          · obtain ⟨inc, s7, -, h⟩ := pbind_inv h
            obtain ⟨-, s8, -, h⟩ := pbind_inv h
            obtain ⟨body, s9, hbody, h⟩ := pbind_inv h
            obtain ⟨h1, -⟩ := okPair_inv h
            subst h1
            refine forDesugar_spec _ _ _ _ (ihstmt _ _ _ hbody) ?_
            intro i hi
            injection hi with hi
            subst hi
            exact ⟨hvd'.1, by simp [hvd'.2]⟩
          · obtain ⟨-, s8, -, h⟩ := pbind_inv h
            obtain ⟨body, s9, hbody, h⟩ := pbind_inv h
            obtain ⟨h1, -⟩ := okPair_inv h
            subst h1
            refine forDesugar_spec _ _ _ _ (ihstmt _ _ _ hbody) ?_
            intro i hi
            injection hi with hi
            subst hi
            exact ⟨hvd'.1, by simp [hvd'.2]⟩
        · obtain ⟨-, s6, -, h⟩ := pbind_inv h
          split at h
          · simp at h
          · obtain ⟨inc, s7, -, h⟩ := pbind_inv h
            obtain ⟨-, s8, -, h⟩ := pbind_inv h
            obtain ⟨body, s9, hbody, h⟩ := pbind_inv h
            obtain ⟨h1, -⟩ := okPair_inv h
            subst h1
            refine forDesugar_spec _ _ _ _ (ihstmt _ _ _ hbody) ?_
            intro i hi
            injection hi with hi
            subst hi
            exact ⟨hvd'.1, by simp [hvd'.2]⟩
          · obtain ⟨-, s8, -, h⟩ := pbind_inv h
            obtain ⟨body, s9, hbody, h⟩ := pbind_inv h
            obtain ⟨h1, -⟩ := okPair_inv h
            subst h1
            refine forDesugar_spec _ _ _ _ (ihstmt _ _ _ hbody) ?_
            intro i hi
            injection hi with hi
            subst hi
            exact ⟨hvd'.1, by simp [hvd'.2]⟩
      · obtain ⟨es, s4, hes, h⟩ := pbind_inv h
        have hes' := ihexpr _ _ _ hes
        split at h
        · simp at h
        · obtain ⟨cond, s5, -, h⟩ := pbind_inv h
          obtain ⟨-, s6, -, h⟩ := pbind_inv h
          split at h
          · simp at h
          · obtain ⟨inc, s7, -, h⟩ := pbind_inv h
            obtain ⟨-, s8, -, h⟩ := pbind_inv h
            obtain ⟨body, s9, hbody, h⟩ := pbind_inv h
            obtain ⟨h1, -⟩ := okPair_inv h
            subst h1
            refine forDesugar_spec _ _ _ _ (ihstmt _ _ _ hbody) ?_
            intro i hi
            injection hi with hi
            subst hi
            exact ⟨hes'.1, by simp [hes'.2]⟩
          · obtain ⟨-, s8, -, h⟩ := pbind_inv h
            obtain ⟨body, s9, hbody, h⟩ := pbind_inv h
            obtain ⟨h1, -⟩ := okPair_inv h
            subst h1
            refine forDesugar_spec _ _ _ _ (ihstmt _ _ _ hbody) ?_
            intro i hi
            injection hi with hi
            subst hi
            exact ⟨hes'.1, by simp [hes'.2]⟩
        · obtain ⟨-, s6, -, h⟩ := pbind_inv h
          split at h
          · simp at h
          · obtain ⟨inc, s7, -, h⟩ := pbind_inv h
            obtain ⟨-, s8, -, h⟩ := pbind_inv h
            obtain ⟨body, s9, hbody, h⟩ := pbind_inv h
            obtain ⟨h1, -⟩ := okPair_inv h
            subst h1
            refine forDesugar_spec _ _ _ _ (ihstmt _ _ _ hbody) ?_
            intro i hi
            injection hi with hi
            subst hi
            exact ⟨hes'.1, by simp [hes'.2]⟩
          · obtain ⟨-, s8, -, h⟩ := pbind_inv h
            obtain ⟨body, s9, hbody, h⟩ := pbind_inv h
            obtain ⟨h1, -⟩ := okPair_inv h
            subst h1
            refine forDesugar_spec _ _ _ _ (ihstmt _ _ _ hbody) ?_
            intro i hi
            injection hi with hi
            subst hi
            exact ⟨hes'.1, by simp [hes'.2]⟩
    -- expressionStatement
    · intro st r st' h
      simp only [expressionStatement] at h
      obtain ⟨v, s1, -, h⟩ := pbind_inv h
      obtain ⟨-, s2, -, h⟩ := pbind_inv h
      obtain ⟨h1, -⟩ := okPair_inv h
      subst h1
      exact ⟨rfl, rfl⟩
    -- block
    · intro st r st' h
      simp only [block] at h
      exact ihblockLoop _ _ _ _ h rfl
    -- blockLoop
    · intro acc st r st' h hacc
      simp only [blockLoop] at h
      split at h
      · simp at h
      · obtain ⟨-, s1, -, h⟩ := pbind_inv h
        obtain ⟨h1, -⟩ := okPair_inv h
        subst h1
        exact hacc
      · split at h
        · simp at h
        · obtain ⟨-, s1, -, h⟩ := pbind_inv h
          obtain ⟨h1, -⟩ := okPair_inv h
          subst h1
          exact hacc
        · obtain ⟨d, s1, hd, h⟩ := pbind_inv h
          refine ihblockLoop _ _ _ _ h ?_
          rw [stmtsNoFor_append, hacc, ihdecl _ _ _ hd]
          rfl

theorem parseLoop_noFor : ∀ (fuel : Nat) (acc : List Stmt) (st : PState)
    (stmts : List Stmt) (st' : PState),
    parseLoop fuel acc st = some (.ok stmts, st') →
    stmtsNoFor acc = true → stmtsNoFor stmts = true := by
  intro fuel
  induction fuel with
  | zero => intro acc st stmts st' h _; simp [parseLoop] at h
  | succ fuel ih =>
    intro acc st stmts st' h hacc
    simp only [parseLoop] at h
    split at h
    · simp at h
    · obtain ⟨h1, -⟩ := okPair_inv h
      subst h1
      exact hacc
    · obtain ⟨d, s1, hd, h⟩ := pbind_inv h
      refine ih _ _ _ _ h ?_
      rw [stmtsNoFor_append, hacc, (noFor_all fuel).1 _ _ _ hd]
      rfl

/-- C7: For every successfully parsed program, the output statement list
contains no For node anywhere (descending through blocks, branches and
function bodies), and every statement for_statement produces is the
desugared Block/While shape: a While, optionally wrapped in a
two-statement Block headed by the var-declaration or
expression-statement initialiser (forDesugar also shows the literal-true
condition when the condition clause is absent). -/
theorem parser_never_outputs_for (fuel : Nat) (tokens : List Token)
    (stmts : List Stmt) (st' : PState)
    (h : parse fuel tokens = some (.ok stmts, st')) :
    stmtsNoFor stmts = true ∧
    ∀ (f : Nat) (st : PState) (r : Stmt) (stq : PState),
      forStatement f st = some (.ok r, stq) → isDesugaredForShape r = true :=
  ⟨parseLoop_noFor fuel [] (PState.new tokens) stmts st' h rfl,
   fun f _ _ _ hf => (((noFor_all f).2.2.2.2.2.2.2.2.1) _ _ _ hf).2⟩

/-- The token sequence of: for (;;) print 1; -/
def forWitnessTokens : List Token :=
  [Token.mk .for_ "for" .null 1, Token.mk .leftParen "(" .null 1,
   Token.mk .semicolon ";" .null 1, Token.mk .semicolon ";" .null 1,
   Token.mk .rightParen ")" .null 1, Token.mk .print "print" .null 1,
   Token.mk .number "1" (.number 1) 1, Token.mk .semicolon ";" .null 1,
   Token.mk .eof "" .null 1]

set_option maxHeartbeats 10000000 in
/-- C7 witness: parsing the program for-semicolon-semicolon-print-1
yields the desugared While with literal-true condition and no For node. -/
theorem parser_never_outputs_for_witness :
    stmtsNoFor [Stmt.whileStmt (.litExpr (.bool true))
      (.printStmt (.litExpr (.number 1)))] = true :=
  (parser_never_outputs_for 25 forWitnessTokens
    [Stmt.whileStmt (.litExpr (.bool true)) (.printStmt (.litExpr (.number 1)))]
    ⟨forWitnessTokens, 8⟩ (by rfl)).1

end Parser

namespace Interpreter

/-- Mutating one environment of the store (borrow_mut().define(..)). -/
def storeDefine (store : List Environment) (ref : Nat) (name : String)
    (value : Literal) : List Environment :=
  match store[ref]? with
  | none => store
  | some env => store.set ref (env.define name value)

/-- callable.rs: Function::arity — the parameter count. -/
def arity : FuncDecl → Nat
  | .mk _ params _ => params.length

/-- callable.rs: NativeFunction arity (clock has 0). -/
def nativeArity : NativeFunction → Nat
  | .clock => 0

/-- callable.rs: the parameter-binding loop of Function::call —
define each parameter name to the positional argument; none models the
arguments.get(i).unwrap() panic when arguments run out (extra arguments
are ignored, as in the Rust enumerate loop). -/
def defineParams : List Token → List Literal → Environment →
    Option Environment
  | [], _, env => some env
  | p :: ps, a :: rest, env => defineParams ps rest (env.define p.lexeme a)
  | _ :: _, [], _ => none

/-- callable.rs: the environment construction of Function::call — a
fresh environment whose parent is the globals reference, with the
parameters bound.  The declaration environment plays no role: Function
carries only the FuncDecl. -/
def functionCallEnv (decl : FuncDecl) (arguments : List Literal)
    (globals : Nat) : Option Environment :=
  match decl with
  | .mk _ params _ => defineParams params arguments (Environment.new (some globals))

/-- interpreter.rs: the != comparison of eval_if_stmt against the fixed
no-else sentinel ExprStmt(LitExpr(Null)); structural equality against
this closed constant is exactly this pattern match. -/
def isNullExprStmt : Stmt → Bool
  | .exprStmt (.litExpr .null) => true
  | _ => false

/-- interpreter.rs: the != comparison of eval_var_decl_stmt and
eval_return_stmt against the fixed absent-value sentinel LitExpr(Null). -/
def isNullLitExpr : Expr → Bool
  | .litExpr .null => true
  | _ => false

/-- interpreter.rs: the operator dispatch of eval_binary, applied after
both operands were evaluated (f32 arithmetic modelled on Rat, number
rendering via toString). -/
def evalBinaryOp (left : Literal) (operator : Token) (right : Literal) :
    Except RuntimeBreak Literal :=
  match left, right with
  | .number l, .number r =>
    match operator.ttype with
    | .minus => .ok (.number (l - r))
    | .plus => .ok (.number (l + r))
    | .slash =>
      if r ≠ 0 then .ok (.number (l / r))
      else .error (.runtimeErrorBreak
        ⟨operator, "Attempted division by zero"⟩)
    | .star => .ok (.number (l * r))
    | .greater => .ok (.bool (decide (l > r)))
    | .greaterEqual => .ok (.bool (decide (l ≥ r)))
    | .less => .ok (.bool (decide (l < r)))
    | .lessEqual => .ok (.bool (decide (l ≤ r)))
    | .equalEqual => .ok (.bool (isEqual left right))
    | .bangEqual => .ok (.bool (!isEqual left right))
    | _ => .error (.runtimeErrorBreak
      ⟨operator, "Invalid operator used with two numbers"⟩)
  | .string l, .string r =>
    match operator.ttype with
    | .plus => .ok (.string (l ++ r))
    | .equalEqual => .ok (.bool (isEqual left right))
    | .bangEqual => .ok (.bool (!isEqual left right))
    | _ => .error (.runtimeErrorBreak
      ⟨operator, "Invalid operator used with two strings"⟩)
  | .string l, .number r =>
    match operator.ttype with
    | .plus => .ok (.string (l ++ toString r))
    | .equalEqual => .ok (.bool (isEqual left (.string (toString r))))
    | .bangEqual => .ok (.bool (!isEqual left (.string (toString r))))
    | _ => .error (.runtimeErrorBreak
      ⟨operator, "Invalid operator used with a string and a number"⟩)
  | .number l, .string r =>
    match operator.ttype with
    | .plus => .ok (.string (toString l ++ r))
    | .equalEqual => .ok (.bool (isEqual (.string (toString l)) right))
    | .bangEqual => .ok (.bool (!isEqual (.string (toString l)) right))
    | _ => .error (.runtimeErrorBreak
      ⟨operator, "Invalid operator used with a number and a string"⟩)
  | _, _ =>
    match operator.ttype with
    | .equalEqual => .ok (.bool (isEqual left right))
    | .bangEqual => .ok (.bool (!isEqual left right))
    | _ => .error (.runtimeErrorBreak
      ⟨operator, "Operands must be two numbers or two strings."⟩)

/-- interpreter.rs: the operator dispatch of eval_unary, applied after
the operand was evaluated.  Note the non-Bool bang case and the final
fall-through both yield Null in the Rust source. -/
def evalUnaryOp (operator : Token) (right : Literal) :
    Except RuntimeBreak Literal :=
  if operator.ttype = .minus then
    match right with
    | .number n => .ok (.number (-n))
    | _ => .error (.runtimeErrorBreak ⟨operator, "Operand must be number"⟩)
  else if operator.ttype = .bang then
    match right with
    | .bool _ => .ok (.bool (!right.is_truthy))
    | _ => .ok .null
  else .ok .null

abbrev ExecR := Option (Except RuntimeBreak Unit × State)
abbrev EvalR := Option (Except RuntimeBreak Literal × State)

mutual

/-- interpreter.rs: execute — dispatch on the statement kind (the
catch-all arm of the Rust match sends ForStmt to Ok(())). -/
def execute : Nat → ClockOracle → Stmt → State → ExecR
  | 0, _, _, _ => none
  | fuel + 1, o, .exprStmt e, s =>
    match evaluate fuel o e s with
    | none => none
    | some (.ok _, s') => some (.ok (), s')
    | some (.error err, s') => some (.error err, s')
  | fuel + 1, o, .printStmt e, s =>
    match evaluate fuel o e s with
    | none => none
    | some (.error err, s') => some (.error err, s')
    | some (.ok v, s') =>
      some (.ok (), { s' with output := v.as_string :: s'.output })
  | fuel + 1, o, .ifStmt cond thenB elseB, s =>
    match evaluate fuel o cond s with
    | none => none
    | some (.error err, s') => some (.error err, s')
    | some (.ok v, s') =>
      if v.is_truthy then execute fuel o thenB s'
      else if !isNullExprStmt elseB then
        execute fuel o elseB s'
      else some (.ok (), s')
  | fuel + 1, o, .whileStmt cond body, s => whileLoop fuel o cond body s
  | fuel + 1, o, .varDeclStmt name init, s =>
    if !isNullLitExpr init then
      match evaluate fuel o init s with
      | none => none
      | some (.error err, s') => some (.error err, s')
      | some (.ok v, s') =>
        some (.ok (), { s' with
          store := storeDefine s'.store s'.environment name.lexeme v })
    else
      some (.ok (), { s with
        store := storeDefine s.store s.environment name.lexeme .null })
  | _ + 1, _, .funcDeclStmt decl, s =>
    match decl with
    | .mk name _ _ =>
      some (.ok (), { s with
        store := storeDefine s.store s.environment name.lexeme (.func decl) })
  | fuel + 1, o, .returnStmt _ value, s =>
    if !isNullLitExpr value then
      match evaluate fuel o value s with
      | none => none
      | some (.error err, s') => some (.error err, s')
      | some (.ok v, s') => some (.error (.returnBreak v), s')
    else some (.error (.returnBreak .null), s)
  | fuel + 1, o, .blockStmt stmts, s =>
    executeBlock fuel o stmts s.store.length
      { s with store := s.store ++ [Environment.new (some s.environment)] }
  | _ + 1, _, .forStmt _ _ _ _ _, s => some (.ok (), s)

/-- interpreter.rs: eval_while_stmt — re-evaluate the condition, run the
body while truthy. -/
def whileLoop : Nat → ClockOracle → Expr → Stmt → State → ExecR
  | 0, _, _, _, _ => none
  | fuel + 1, o, cond, body, s =>
    match evaluate fuel o cond s with
    | none => none
    | some (.error err, s') => some (.error err, s')
    | some (.ok v, s') =>
      if v.is_truthy then
        match execute fuel o body s' with
        | none => none
        | some (.error err, s'') => some (.error err, s'')
        | some (.ok _, s'') => whileLoop fuel o cond body s''
      else some (.ok (), s')

/-- interpreter.rs: execute_block — save the current environment field,
switch to env, run the statements, restore the saved field on both exit
paths (mid-loop error and normal completion). -/
def executeBlock : Nat → ClockOracle → List Stmt → Nat → State → ExecR
  | 0, _, _, _, _ => none
  | fuel + 1, o, stmts, env, s =>
    blockLoop fuel o stmts s.environment { s with environment := env }

def blockLoop : Nat → ClockOracle → List Stmt → Nat → State → ExecR
  | 0, _, _, _, _ => none
  | _ + 1, _, [], previous, s => some (.ok (), { s with environment := previous })
  | fuel + 1, o, stmt :: rest, previous, s =>
    match execute fuel o stmt s with
    | none => none
    | some (.error err, s') => some (.error err, { s' with environment := previous })
    | some (.ok _, s') => blockLoop fuel o rest previous s'

/-- interpreter.rs: evaluate — dispatch on the expression kind. -/
def evaluate : Nat → ClockOracle → Expr → State → EvalR
  | 0, _, _, _ => none
  | fuel + 1, o, .groupingExpr g, s => evaluate fuel o g s
  | fuel + 1, o, .binaryExpr l op r, s =>
    match evaluate fuel o l s with
    | none => none
    | some (.error err, s₁) => some (.error err, s₁)
    | some (.ok lv, s₁) =>
      match evaluate fuel o r s₁ with
      | none => none
      | some (.error err, s₂) => some (.error err, s₂)
      | some (.ok rv, s₂) => some (evalBinaryOp lv op rv, s₂)
  | fuel + 1, o, .unaryExpr op r, s =>
    match evaluate fuel o r s with
    | none => none
    | some (.error err, s₁) => some (.error err, s₁)
    | some (.ok rv, s₁) => some (evalUnaryOp op rv, s₁)
  | _ + 1, _, .varExpr name, s =>
    match envGet s.store.length s.store s.environment name with
    | none => none
    | some (.ok v) => some (.ok v, s)
    | some (.error re) => some (.error (.runtimeErrorBreak re), s)
  | fuel + 1, o, .assignExpr name value, s =>
    match evaluate fuel o value s with
    | none => none
    | some (.error err, s₁) => some (.error err, s₁)
    | some (.ok v, s₁) =>
      match envAssign s₁.store.length s₁.store s₁.environment name v with
      | none => none
      | some (.ok store') => some (.ok v, { s₁ with store := store' })
      | some (.error err) => some (.error err, s₁)
  | fuel + 1, o, .logicExpr l op r, s =>
    match evaluate fuel o l s with
    | none => none
    | some (.error err, s₁) => some (.error err, s₁)
    | some (.ok lv, s₁) =>
      if (decide (op.ttype = .or) && lv.is_truthy) || !lv.is_truthy then
        some (.ok lv, s₁)
      else evaluate fuel o r s₁
  | fuel + 1, o, .callExpr calleeE paren argsE, s =>
    match evaluate fuel o calleeE s with
    | none => none
    | some (.error err, s₁) => some (.error err, s₁)
    | some (.ok callee, s₁) =>
      match (match argsE with
        | some es => evalArgs fuel o es [] s₁
        | none => some (.ok [], s₁)) with
      | none => none
      | some (argsR, s₂) =>
        match callee with
        | .func decl =>
          match argsR with
          | .ok args =>
            if arity decl ≠ args.length then
              some (.error (.runtimeErrorBreak ⟨paren,
                "Expected " ++ toString (arity decl) ++
                  " arguments but got " ++ toString args.length⟩), s₂)
            else callFunction fuel o decl args s₂
          | .error err => some (.error err, s₂)
        | .nativeFunc nf =>
          match argsR with
          | .ok args =>
            if nativeArity nf ≠ args.length then
              some (.error (.runtimeErrorBreak ⟨paren,
                "Expected " ++ toString (nativeArity nf) ++
                  " arguments but got " ++ toString args.length⟩), s₂)
            else
              some (.ok (.number (o s₂.ticks)), { s₂ with ticks := s₂.ticks + 1 })
          | .error err => some (.error err, s₂)
        | _ =>
          some (.error (.runtimeErrorBreak
            ⟨paren, "Can only call functions and classes"⟩), s₂)
  | _ + 1, _, .litExpr l, s => some (.ok l, s)

/-- interpreter.rs: the argument collect in eval_call — evaluate left to
right, stopping at the first error. -/
def evalArgs : Nat → ClockOracle → List Expr → List Literal → State →
    Option (Except RuntimeBreak (List Literal) × State)
  | 0, _, _, _, _ => none
  | _ + 1, _, [], acc, s => some (.ok acc, s)
  | fuel + 1, o, e :: es, acc, s =>
    match evaluate fuel o e s with
    | none => none
    | some (.error err, s') => some (.error err, s')
    | some (.ok v, s') => evalArgs fuel o es (acc ++ [v]) s'

/-- callable.rs: Function::call — allocate the globals-parented call
environment, bind the parameters, run the body via execute_block and map
the outcome (return signal to value, runtime error re-raised, Null
otherwise). -/
def callFunction : Nat → ClockOracle → FuncDecl → List Literal → State →
    EvalR
  | 0, _, _, _, _ => none
  | fuel + 1, o, decl, arguments, s =>
    match functionCallEnv decl arguments s.globals with
    | none => none
    | some env =>
      match decl with
      | .mk _ _ body =>
        match executeBlock fuel o body s.store.length
            { s with store := s.store ++ [env] } with
        | none => none
        | some (.error (.returnBreak v), s') => some (.ok v, s')
        | some (.error (.runtimeErrorBreak re), s') =>
          some (.error (.runtimeErrorBreak re), s')
        | some (.ok _, s') => some (.ok .null, s')

end

/-- interpreter.rs: the for loop of interpret — execute each statement,
propagating the first error via the ? operator. -/
def interpretLoop : Nat → ClockOracle → List Stmt → State → ExecR
  | 0, _, _, _ => none
  | _ + 1, _, [], s => some (.ok (), s)
  | fuel + 1, o, stmt :: rest, s =>
    match execute fuel o stmt s with
    | none => none
    | some (.error err, s') => some (.error err, s')
    | some (.ok _, s') => interpretLoop fuel o rest s'

/-- interpreter.rs: interpret. -/
def interpret (fuel : Nat) (o : ClockOracle) (stmts : List Stmt)
    (s : State) : ExecR :=
  interpretLoop fuel o stmts s

end Interpreter

/-- lox.rs: the outcome of Lox::run — printed lines (most recent first;
diagnostics and program output share stdout) plus the error flags. -/
structure RunOutcome where
  printed : List String
  hadError : Bool
  hadRuntimeError : Bool

/-- lox.rs: Lox::run — scan, parse, and only when both succeeded hand
the statements to the interpreter; errors are reported and flagged. -/
def run (fuel : Nat) (o : ClockOracle) (source : String) :
    Option RunOutcome :=
  match Scanner.scanTokens source with
  | none => none
  | some (.error e) => some ⟨[renderLoxError e], true, false⟩
  | some (.ok tokens) =>
    match Parser.parse fuel tokens with
    | none => none
    | some (.error e, _) => some ⟨[renderParseError e], true, false⟩
    | some (.ok stmts, _) =>
      match Interpreter.interpret fuel o stmts Interpreter.new with
      | none => none
      | some (.ok _, s) => some ⟨s.output, false, false⟩
      | some (.error err, s) =>
        some ⟨renderRuntimeBreak err :: s.output, false, true⟩

/-- The token sequence of the malformed program: plus semicolon plus
semicolon (a parse error in the first statement and another in the
second). -/
def c4TokensTwoErrors : List Token :=
  [Token.mk .plus "+" .null 1, Token.mk .semicolon ";" .null 1,
   Token.mk .plus "+" .null 1, Token.mk .semicolon ";" .null 1,
   Token.mk .eof "" .null 1]

/-- Tokens of: plus semicolon 1 semicolon (a parse error in the first
statement, a well-formed second statement). -/
def c4TokensOneError : List Token :=
  [Token.mk .plus "+" .null 1, Token.mk .semicolon ";" .null 1,
   Token.mk .number "1" (.number 1) 1, Token.mk .semicolon ";" .null 1,
   Token.mk .eof "" .null 1]

set_option maxHeartbeats 4000000 in
/-- C4 counterexample: the parser does not continue gathering further
errors after resynchronising — parse returns exactly the first error and
its result does not depend on the remainder of the token sequence: with
a second malformed statement and with a well-formed second statement the
result is the same single first error (the Result type of parse cannot
even carry a second error). -/
theorem parse_stops_at_first_error :
    (Parser.parse 20 c4TokensTwoErrors).map Prod.fst =
      some (.error ⟨Token.mk .plus "+" .null 1, "Expect expression."⟩) ∧
    (Parser.parse 20 c4TokensOneError).map Prod.fst =
      some (.error ⟨Token.mk .plus "+" .null 1, "Expect expression."⟩) :=
  ⟨by rfl, by rfl⟩

/-- C4 amended: on a parse error, declaration() resynchronises but
parse() propagates that first error immediately — the error raised by
the first failing declaration is the result of the whole parse, with no
further parsing of the remaining tokens — and program execution is not
attempted when any error occurred: on a parse error (resp. a scan
error), run prints only the rendered diagnostic, sets had_error, and
never invokes the interpreter (no program output, no runtime error). -/
theorem parse_error_stops_parse_and_blocks_execution :
    (∀ (fuel : Nat) (acc : List Stmt) (st : Parser.PState) (e : ParseError)
      (st₁ : Parser.PState), Parser.isAtEnd st = some false →
      Parser.declaration fuel st = some (.error e, st₁) →
      Parser.parseLoop (fuel + 1) acc st = some (.error e, st₁)) ∧
    (∀ (fuel : Nat) (o : ClockOracle) (source : String)
      (tokens : List Token) (e : ParseError) (st₁ : Parser.PState),
      Scanner.scanTokens source = some (.ok tokens) →
      Parser.parse fuel tokens = some (.error e, st₁) →
      run fuel o source = some ⟨[renderParseError e], true, false⟩) ∧
    (∀ (fuel : Nat) (o : ClockOracle) (source : String) (e : LoxError),
      Scanner.scanTokens source = some (.error e) →
      run fuel o source = some ⟨[renderLoxError e], true, false⟩) := by
  refine ⟨?_, ?_, ?_⟩
  · intro fuel acc st e st₁ hend hdecl
    simp only [Parser.parseLoop, hend, Parser.pbind, hdecl]
  · intro fuel o source tokens e st₁ hscan hparse
    simp only [run, hscan, hparse]
  · intro fuel o source e hscan
    simp only [run, hscan]

set_option maxHeartbeats 4000000 in
/-- C4 witness: concrete uses of all three parts of the amended claim —
the first declaration error of the two-error token list is the whole
parse result, and run on the malformed sources prints only the
diagnostic line with had_error set. -/
theorem parse_error_stops_parse_and_blocks_execution_witness :
    Parser.parseLoop 20 [] (Parser.PState.new c4TokensTwoErrors) =
      some (.error ⟨Token.mk .plus "+" .null 1, "Expect expression."⟩,
        ⟨c4TokensTwoErrors, 2⟩) ∧
    run 20 (fun _ => 0) "+;" =
      some ⟨["Syntax error: Line 1 at '+': Expect expression."],
        true, false⟩ ∧
    run 20 (fun _ => 0) "\"" =
      some ⟨["[line 1] Error while scanning: Unterminated string."],
        true, false⟩ := by
  obtain ⟨h1, h2, h3⟩ := parse_error_stops_parse_and_blocks_execution
  refine ⟨?_, ?_, ?_⟩
  · exact h1 19 [] (Parser.PState.new c4TokensTwoErrors)
      ⟨Token.mk .plus "+" .null 1, "Expect expression."⟩
      ⟨c4TokensTwoErrors, 2⟩ (by rfl) (by rfl)
  · exact h2 20 (fun _ => 0) "+;"
      [Token.mk .plus "+" .null 1, Token.mk .semicolon ";" .null 1,
       Token.mk .eof "" .null 1]
      ⟨Token.mk .plus "+" .null 1, "Expect expression."⟩
      ⟨[Token.mk .plus "+" .null 1, Token.mk .semicolon ";" .null 1,
        Token.mk .eof "" .null 1], 2⟩ (by rfl) (by rfl)
  · exact h3 20 (fun _ => 0) "\"" ⟨1, "Unterminated string."⟩ (by rfl)

namespace Interpreter

theorem blockLoop_env (fuel : Nat) : ∀ (o : ClockOracle) (stmts : List Stmt)
    (prev : Nat) (s : State) (r : Except RuntimeBreak Unit) (s' : State),
    blockLoop fuel o stmts prev s = some (r, s') → s'.environment = prev := by
  induction fuel with
  | zero => intro o stmts prev s r s' h; simp [blockLoop] at h
  | succ fuel ih =>
    intro o stmts prev s r s' h
    cases stmts with
    | nil =>
      simp only [blockLoop, Option.some.injEq, Prod.mk.injEq] at h
      obtain ⟨-, h2⟩ := h
      subst h2
      rfl
    | cons stmt rest =>
      simp only [blockLoop] at h
      split at h
      · simp at h
      · simp only [Option.some.injEq, Prod.mk.injEq] at h
        obtain ⟨-, h2⟩ := h
        subst h2
        rfl
      · exact ih o rest prev _ r s' h

/-- C2: For every block executed via execute_block, the interpreter's
current-environment field after the call equals its value before the
call, on every exit path — when all statements succeed and also when a
statement raises a runtime error or a return signal mid-block (the
result r ranges over all three completions). -/
theorem execute_block_restores_environment (fuel : Nat) (o : ClockOracle)
    (stmts : List Stmt) (env : Nat) (s : State)
    (r : Except RuntimeBreak Unit) (s' : State)
    (h : executeBlock fuel o stmts env s = some (r, s')) :
    s'.environment = s.environment := by
  cases fuel with
  | zero => simp [executeBlock] at h
  | succ fuel => exact blockLoop_env fuel o stmts s.environment _ r s' h

/-- C2 witness: a concrete block execution (one print statement in a
fresh child environment of the freshly constructed interpreter) returns
with the current-environment field back at its pre-call value. -/
theorem execute_block_restores_environment_witness :
    ((executeBlock 5 (fun _ => 0) [Stmt.printStmt (.litExpr (.number 1))] 1
        { Interpreter.new with
          store := Interpreter.new.store ++ [Environment.new (some 0)] }).map
      (fun p => p.2.environment)) = some 0 := by
  cases hx : executeBlock 5 (fun _ => 0)
      [Stmt.printStmt (.litExpr (.number 1))] 1
      { Interpreter.new with
        store := Interpreter.new.store ++ [Environment.new (some 0)] } with
  | none =>
    have hs : (executeBlock 5 (fun _ => 0)
        [Stmt.printStmt (.litExpr (.number 1))] 1
        { Interpreter.new with
          store := Interpreter.new.store ++ [Environment.new (some 0)] }).isSome
        = true := by rfl
    rw [hx] at hs
    simp at hs
  | some p =>
    obtain ⟨r, s'⟩ := p
    simp only [Option.map_some']
    rw [execute_block_restores_environment 5 _ _ _ _ r s' hx]
    rfl

theorem defineParams_untouched : ∀ (ps : List Token) (qs : List Literal)
    (env env' : Environment) (key : String),
    key ∉ ps.map Token.lexeme → defineParams ps qs env = some env' →
    valuesGet env'.values key = valuesGet env.values key := by
  intro ps
  induction ps with
  | nil =>
    intro qs env env' key _ h
    simp [defineParams] at h
    subst h
    rfl
  | cons p ps ih =>
    intro qs env env' key hk h
    cases qs with
    | nil => simp [defineParams] at h
    | cons a rest =>
      simp only [defineParams] at h
      simp only [List.map_cons, List.mem_cons, not_or] at hk
      rw [ih rest _ env' key hk.2 h]
      simp only [Environment.define, valuesGet]
      rw [if_neg (fun he => hk.1 he.symm)]

theorem defineParams_enclosing : ∀ (ps : List Token) (qs : List Literal)
    (env env' : Environment), defineParams ps qs env = some env' →
    env'.enclosing = env.enclosing := by
  intro ps
  induction ps with
  | nil =>
    intro qs env env' h
    simp [defineParams] at h
    subst h
    rfl
  | cons p ps ih =>
    intro qs env env' h
    cases qs with
    | nil => simp [defineParams] at h
    | cons a rest =>
      simp only [defineParams] at h
      rw [ih rest _ env' h]
      rfl

theorem defineParams_total : ∀ (ps : List Token) (qs : List Literal)
    (env : Environment), ps.length ≤ qs.length →
    (defineParams ps qs env).isSome = true := by
  intro ps
  induction ps with
  | nil => intro qs env _; simp [defineParams]
  | cons p ps ih =>
    intro qs env hlen
    cases qs with
    | nil => simp at hlen
    | cons a rest =>
      simp only [List.length_cons, Nat.succ_le_succ_iff] at hlen
      simpa [defineParams] using ih rest _ hlen

theorem defineParams_lookup : ∀ (ps : List Token) (qs : List Literal)
    (env env' : Environment), (ps.map Token.lexeme).Nodup →
    defineParams ps qs env = some env' →
    ∀ i (hp : i < ps.length) (hq : i < qs.length),
      valuesGet env'.values (ps.get ⟨i, hp⟩).lexeme = some (qs.get ⟨i, hq⟩) := by
  intro ps
  induction ps with
  | nil => intro qs env env' _ _ i hp; simp at hp
  | cons p ps ih =>
    intro qs env env' hnd h i hp hq
    cases qs with
    | nil => simp [defineParams] at h
    | cons a rest =>
      simp only [defineParams] at h
      simp only [List.map_cons, List.nodup_cons] at hnd
      cases i with
      | zero =>
        show valuesGet env'.values p.lexeme = some a
        rw [defineParams_untouched ps rest _ env' p.lexeme hnd.1 h]
        simp [Environment.define, valuesGet]
      | succ j =>
        simp only [List.length_cons, Nat.succ_lt_succ_iff] at hp hq
        exact ih rest _ env' hnd.2 h j hp hq

/-- A name is bound in the environment at index i of the store. -/
def presentStore (store : List Environment) (i : Nat) (n : String) : Prop :=
  ∃ env, store[i]? = some env ∧ (valuesGet env.values n).isSome = true

theorem valuesGet_cons_isSome {vals : List (String × Literal)} {n : String}
    (m : String) (v : Literal) (h : (valuesGet vals n).isSome = true) :
    (valuesGet ((m, v) :: vals) n).isSome = true := by
  simp only [valuesGet]
  split <;> simp [h]

theorem presentStore_define {store : List Environment} {i : Nat}
    {n : String} (ref : Nat) (name : String) (v : Literal)
    (h : presentStore store i n) :
    presentStore (storeDefine store ref name v) i n := by
  obtain ⟨env, he, hv⟩ := h
  have hlt : i < store.length := by
    by_contra hge
    rw [List.getElem?_eq_none (Nat.le_of_not_lt hge)] at he
    exact Option.noConfusion he
  unfold storeDefine
  cases hr : store[ref]? with
  | none => exact ⟨env, he, hv⟩
  | some envr =>
    by_cases hi : i = ref
    · subst hi
      rw [he] at hr
      injection hr with hr
      subst hr
      exact ⟨env.define name v, List.getElem?_set_self hlt,
        valuesGet_cons_isSome name v hv⟩
    · exact ⟨env, by rw [List.getElem?_set_ne (fun hh => hi hh.symm)]; exact he,
        hv⟩

theorem presentStore_append {store : List Environment} {i : Nat}
    {n : String} (env : Environment) (h : presentStore store i n) :
    presentStore (store ++ [env]) i n := by
  obtain ⟨e, he, hv⟩ := h
  have hlt : i < store.length := by
    by_contra hge
    rw [List.getElem?_eq_none (Nat.le_of_not_lt hge)] at he
    exact Option.noConfusion he
  exact ⟨e, by rw [List.getElem?_append_left hlt]; exact he, hv⟩

theorem presentStore_envAssign : ∀ (fuel : Nat) (store : List Environment)
    (ref : Nat) (name : Token) (v : Literal) (store' : List Environment),
    envAssign fuel store ref name v = some (.ok store') →
    ∀ i n, presentStore store i n → presentStore store' i n := by
  intro fuel
  induction fuel with
  | zero => intro store ref name v store' h; simp [envAssign] at h
  | succ fuel ih =>
    intro store ref name v store' h i n hp
    simp only [envAssign] at h
    split at h
    · exact Option.noConfusion h
    · rename_i env hr
      split at h
      · simp only [Option.some.injEq, Except.ok.injEq] at h
        subst h
        obtain ⟨e, he, hv⟩ := hp
        have hlt : i < store.length := by
          by_contra hge
          rw [List.getElem?_eq_none (Nat.le_of_not_lt hge)] at he
          exact Option.noConfusion he
        by_cases hi : i = ref
        · subst hi
          rw [List.get?_eq_getElem?] at hr
          rw [he] at hr
          injection hr with hr
          subst hr
          exact ⟨e.define name.lexeme v, List.getElem?_set_self hlt,
            valuesGet_cons_isSome _ _ hv⟩
        · exact ⟨e,
            by rw [List.getElem?_set_ne (fun hh => hi hh.symm)]; exact he, hv⟩
      · split at h
        · exact ih _ _ _ _ _ h i n hp
        · exact (Except.noConfusion (Option.some.inj h))

/-- The state components every evaluator step preserves: the globals
index is constant, the tick counter never decreases, and a binding once
present in a store slot stays present in that slot. -/
def Preserves (s s' : State) : Prop :=
  s'.globals = s.globals ∧ s.ticks ≤ s'.ticks ∧
  ∀ i n, presentStore s.store i n → presentStore s'.store i n

theorem Preserves.refl (s : State) : Preserves s s :=
  ⟨rfl, Nat.le_refl _, fun _ _ h => h⟩

theorem Preserves.comp {a b c : State} (h1 : Preserves a b)
    (h2 : Preserves b c) : Preserves a c :=
  ⟨h2.1.trans h1.1, h1.2.1.trans h2.2.1,
    fun i n hp => h2.2.2 i n (h1.2.2 i n hp)⟩

theorem Preserves.same {a b : State} (hg : b.globals = a.globals)
    (ht : b.ticks = a.ticks) (hs : b.store = a.store) : Preserves a b := by
  refine ⟨hg, ?_, ?_⟩
  · rw [ht]
  · intro i n hp
    rw [hs]
    exact hp

set_option maxHeartbeats 4000000 in
theorem evalPreserves : ∀ fuel : Nat,
    (∀ o stmt s r s', execute fuel o stmt s = some (r, s') →
      Preserves s s') ∧
    (∀ o cond body s r s', whileLoop fuel o cond body s = some (r, s') →
      Preserves s s') ∧
    (∀ o stmts env s r s', executeBlock fuel o stmts env s = some (r, s') →
      Preserves s s') ∧
    (∀ o stmts prev s r s', blockLoop fuel o stmts prev s = some (r, s') →
      Preserves s s') ∧
    (∀ o e s r s', evaluate fuel o e s = some (r, s') → Preserves s s') ∧
    (∀ o es acc s r s', evalArgs fuel o es acc s = some (r, s') →
      Preserves s s') ∧
    (∀ o decl args s r s', callFunction fuel o decl args s = some (r, s') →
      Preserves s s') := by
  intro fuel
  induction fuel with
  | zero =>
    refine ⟨?_, ?_, ?_, ?_, ?_, ?_, ?_⟩ <;>
      · intros o a s r s' h
        simp_all [execute, whileLoop, executeBlock, blockLoop, evaluate,
          evalArgs, callFunction]
  | succ fuel ih =>
    obtain ⟨ihE, ihW, ihEB, ihBL, ihV, ihA, ihC⟩ := ih
    refine ⟨?_, ?_, ?_, ?_, ?_, ?_, ?_⟩
    -- execute
    · intro o stmt s r s' h
      cases stmt with
      | exprStmt e =>
        simp only [execute] at h
        split at h
        · exact Option.noConfusion h
        · rename_i v s₁ heq
          simp only [Option.some.injEq, Prod.mk.injEq] at h
          obtain ⟨-, h2⟩ := h
          subst h2
          exact ihV o e s _ _ heq
        · rename_i err s₁ heq
          simp only [Option.some.injEq, Prod.mk.injEq] at h
          obtain ⟨-, h2⟩ := h
          subst h2
          exact ihV o e s _ _ heq
      | printStmt e =>
        simp only [execute] at h
        split at h
        · exact Option.noConfusion h
        · rename_i err s₁ heq
          simp only [Option.some.injEq, Prod.mk.injEq] at h
          obtain ⟨-, h2⟩ := h
          subst h2
          exact ihV o e s _ _ heq
        · rename_i v s₁ heq
          simp only [Option.some.injEq, Prod.mk.injEq] at h
          obtain ⟨-, h2⟩ := h
          subst h2
          exact (ihV o e s _ _ heq).comp (Preserves.same rfl rfl rfl)
      | ifStmt cond thenB elseB =>
        simp only [execute] at h
        split at h
        · exact Option.noConfusion h
        · rename_i err s₁ heq
          simp only [Option.some.injEq, Prod.mk.injEq] at h
          obtain ⟨-, h2⟩ := h
          subst h2
          exact ihV o cond s _ _ heq
        · rename_i v s₁ heq
          split at h
          · exact (ihV o cond s _ _ heq).comp (ihE o thenB s₁ r s' h)
          · split at h
            · exact (ihV o cond s _ _ heq).comp (ihE o elseB s₁ r s' h)
            · simp only [Option.some.injEq, Prod.mk.injEq] at h
              obtain ⟨-, h2⟩ := h
              subst h2
              exact ihV o cond s _ _ heq
      | whileStmt cond body =>
        simp only [execute] at h
        exact ihW o cond body s r s' h
      | varDeclStmt name init =>
        simp only [execute] at h
        split at h
        · split at h
          · exact Option.noConfusion h
          · rename_i err s₁ heq
            simp only [Option.some.injEq, Prod.mk.injEq] at h
            obtain ⟨-, h2⟩ := h
            subst h2
            exact ihV o init s _ _ heq
          · rename_i v s₁ heq
            simp only [Option.some.injEq, Prod.mk.injEq] at h
            obtain ⟨-, h2⟩ := h
            subst h2
            exact (ihV o init s _ _ heq).comp
              ⟨rfl, Nat.le_refl _, fun i n hp => presentStore_define _ _ _ hp⟩
        · simp only [Option.some.injEq, Prod.mk.injEq] at h
          obtain ⟨-, h2⟩ := h
          subst h2
          exact ⟨rfl, Nat.le_refl _, fun i n hp => presentStore_define _ _ _ hp⟩
      | funcDeclStmt decl =>
        cases decl with
        | mk nm ps bd =>
          simp only [execute, Option.some.injEq, Prod.mk.injEq] at h
          obtain ⟨-, h2⟩ := h
          subst h2
          exact ⟨rfl, Nat.le_refl _, fun i n hp => presentStore_define _ _ _ hp⟩
      | returnStmt tk value =>
        simp only [execute] at h
        split at h
        · split at h
          · exact Option.noConfusion h
          · rename_i err s₁ heq
            simp only [Option.some.injEq, Prod.mk.injEq] at h
            obtain ⟨-, h2⟩ := h
            subst h2
            exact ihV o value s _ _ heq
          · rename_i v s₁ heq
            simp only [Option.some.injEq, Prod.mk.injEq] at h
            obtain ⟨-, h2⟩ := h
            subst h2
            exact ihV o value s _ _ heq
        · simp only [Option.some.injEq, Prod.mk.injEq] at h
          obtain ⟨-, h2⟩ := h
          subst h2
          exact Preserves.refl s
      | blockStmt stmts =>
        simp only [execute] at h
        have hmid : Preserves s
            { s with store := s.store ++ [Environment.new (some s.environment)] } :=
          ⟨rfl, Nat.le_refl _, fun i n hp => presentStore_append _ hp⟩
        exact hmid.comp (ihEB o stmts _ _ r s' h)
      | forStmt a b c d e =>
        simp only [execute, Option.some.injEq, Prod.mk.injEq] at h
        obtain ⟨-, h2⟩ := h
        subst h2
        exact Preserves.refl s
    -- whileLoop
    · intro o cond body s r s' h
      simp only [whileLoop] at h
      split at h
      · exact Option.noConfusion h
      · rename_i err s₁ heq
        simp only [Option.some.injEq, Prod.mk.injEq] at h
        obtain ⟨-, h2⟩ := h
        subst h2
        exact ihV o cond s _ _ heq
      · rename_i v s₁ heq
        split at h
        · split at h
          · exact Option.noConfusion h
          · rename_i err s₂ heq₂
            simp only [Option.some.injEq, Prod.mk.injEq] at h
            obtain ⟨-, h2⟩ := h
            subst h2
            exact (ihV o cond s _ _ heq).comp (ihE o body s₁ _ _ heq₂)
          · rename_i u s₂ heq₂
            exact (ihV o cond s _ _ heq).comp
              ((ihE o body s₁ _ _ heq₂).comp (ihW o cond body s₂ r s' h))
        · simp only [Option.some.injEq, Prod.mk.injEq] at h
          obtain ⟨-, h2⟩ := h
          subst h2
          exact ihV o cond s _ _ heq
    -- executeBlock
    · intro o stmts env s r s' h
      simp only [executeBlock] at h
      exact (Preserves.same rfl rfl rfl).comp
        (ihBL o stmts s.environment { s with environment := env } r s' h)
    -- blockLoop
    · intro o stmts prev s r s' h
      cases stmts with
      | nil =>
        simp only [blockLoop, Option.some.injEq, Prod.mk.injEq] at h
        obtain ⟨-, h2⟩ := h
        subst h2
        exact Preserves.same rfl rfl rfl
      | cons stmt rest =>
        simp only [blockLoop] at h
        split at h
        · exact Option.noConfusion h
        · rename_i err s₁ heq
          simp only [Option.some.injEq, Prod.mk.injEq] at h
          obtain ⟨-, h2⟩ := h
          subst h2
          exact (ihE o stmt s _ _ heq).comp (Preserves.same rfl rfl rfl)
        · rename_i u s₁ heq
          exact (ihE o stmt s _ _ heq).comp (ihBL o rest prev s₁ r s' h)
    -- evaluate
    · intro o e s r s' h
      cases e with
      | groupingExpr g =>
        simp only [evaluate] at h
        exact ihV o g s r s' h
      | binaryExpr el op er =>
        simp only [evaluate] at h
        split at h
        · exact Option.noConfusion h
        · rename_i err s₁ heq
          simp only [Option.some.injEq, Prod.mk.injEq] at h
          obtain ⟨-, h2⟩ := h
          subst h2
          exact ihV o el s _ _ heq
        · rename_i lv s₁ heq
          split at h
          · exact Option.noConfusion h
          · rename_i err s₂ heq₂
            simp only [Option.some.injEq, Prod.mk.injEq] at h
            obtain ⟨-, h2⟩ := h
            subst h2
            exact (ihV o el s _ _ heq).comp (ihV o er s₁ _ _ heq₂)
          · rename_i rv s₂ heq₂
            simp only [Option.some.injEq, Prod.mk.injEq] at h
            obtain ⟨-, h2⟩ := h
            subst h2
            exact (ihV o el s _ _ heq).comp (ihV o er s₁ _ _ heq₂)
      | unaryExpr op er =>
        simp only [evaluate] at h
        split at h
        · exact Option.noConfusion h
        · rename_i err s₁ heq
          simp only [Option.some.injEq, Prod.mk.injEq] at h
          obtain ⟨-, h2⟩ := h
          subst h2
          exact ihV o er s _ _ heq
        · rename_i rv s₁ heq
          simp only [Option.some.injEq, Prod.mk.injEq] at h
          obtain ⟨-, h2⟩ := h
          subst h2
          exact ihV o er s _ _ heq
      | varExpr name =>
        simp only [evaluate] at h
        split at h
        · exact Option.noConfusion h
        · simp only [Option.some.injEq, Prod.mk.injEq] at h
          obtain ⟨-, h2⟩ := h
          subst h2
          exact Preserves.refl s
        · simp only [Option.some.injEq, Prod.mk.injEq] at h
          obtain ⟨-, h2⟩ := h
          subst h2
          exact Preserves.refl s
      | assignExpr name value =>
        simp only [evaluate] at h
        split at h
        · exact Option.noConfusion h
        · rename_i err s₁ heq
          simp only [Option.some.injEq, Prod.mk.injEq] at h
          obtain ⟨-, h2⟩ := h
          subst h2
          exact ihV o value s _ _ heq
        · rename_i v s₁ heq
          split at h
          · exact Option.noConfusion h
          · rename_i store' heq₂
            simp only [Option.some.injEq, Prod.mk.injEq] at h
            obtain ⟨-, h2⟩ := h
            subst h2
            exact (ihV o value s _ _ heq).comp
              ⟨rfl, Nat.le_refl _,
                fun i n hp => presentStore_envAssign _ _ _ _ _ _ heq₂ i n hp⟩
          · rename_i err heq₂
            simp only [Option.some.injEq, Prod.mk.injEq] at h
            obtain ⟨-, h2⟩ := h
            subst h2
            exact ihV o value s _ _ heq
      | logicExpr el op er =>
        simp only [evaluate] at h
        split at h
        · exact Option.noConfusion h
        · rename_i err s₁ heq
          simp only [Option.some.injEq, Prod.mk.injEq] at h
          obtain ⟨-, h2⟩ := h
          subst h2
          exact ihV o el s _ _ heq
        · rename_i lv s₁ heq
          split at h
          · simp only [Option.some.injEq, Prod.mk.injEq] at h
            obtain ⟨-, h2⟩ := h
            subst h2
            exact ihV o el s _ _ heq
          · exact (ihV o el s _ _ heq).comp (ihV o er s₁ r s' h)
      | callExpr calleeE paren argsE =>
        simp only [evaluate] at h
        split at h
        · exact Option.noConfusion h
        · rename_i err s₁ heq
          simp only [Option.some.injEq, Prod.mk.injEq] at h
          obtain ⟨-, h2⟩ := h
          subst h2
          exact ihV o calleeE s _ _ heq
        · rename_i callee s₁ heq
          split at h
          · exact Option.noConfusion h
          · rename_i argsR s₂ heq₂
            have hmid : Preserves s₁ s₂ := by
              cases argsE with
              | some es => exact ihA o es [] s₁ _ _ heq₂
              | none =>
                simp only [Option.some.injEq, Prod.mk.injEq] at heq₂
                obtain ⟨-, h2⟩ := heq₂
                subst h2
                exact Preserves.refl s₁
            have hs₂ : Preserves s s₂ := (ihV o calleeE s _ _ heq).comp hmid
            split at h
            · rename_i decl
              split at h
              · rename_i args
                split at h
                · simp only [Option.some.injEq, Prod.mk.injEq] at h
                  obtain ⟨-, h2⟩ := h
                  subst h2
                  exact hs₂
                · exact hs₂.comp (ihC o decl args s₂ r s' h)
              · simp only [Option.some.injEq, Prod.mk.injEq] at h
                obtain ⟨-, h2⟩ := h
                subst h2
                exact hs₂
            · rename_i nf
              split at h
              · rename_i args
                split at h
                · simp only [Option.some.injEq, Prod.mk.injEq] at h
                  obtain ⟨-, h2⟩ := h
                  subst h2
                  exact hs₂
                · simp only [Option.some.injEq, Prod.mk.injEq] at h
                  obtain ⟨-, h2⟩ := h
                  subst h2
                  exact hs₂.comp ⟨rfl, Nat.le_succ _, fun _ _ hp => hp⟩
              · simp only [Option.some.injEq, Prod.mk.injEq] at h
                obtain ⟨-, h2⟩ := h
                subst h2
                exact hs₂
            · simp only [Option.some.injEq, Prod.mk.injEq] at h
              obtain ⟨-, h2⟩ := h
              subst h2
              exact hs₂
      | litExpr l =>
        simp only [evaluate, Option.some.injEq, Prod.mk.injEq] at h
        obtain ⟨-, h2⟩ := h
        subst h2
        exact Preserves.refl s
    -- evalArgs
    · intro o es acc s r s' h
      cases es with
      | nil =>
        simp only [evalArgs, Option.some.injEq, Prod.mk.injEq] at h
        obtain ⟨-, h2⟩ := h
        subst h2
        exact Preserves.refl s
      | cons e rest =>
        simp only [evalArgs] at h
        split at h
        · exact Option.noConfusion h
        · rename_i err s₁ heq
          simp only [Option.some.injEq, Prod.mk.injEq] at h
          obtain ⟨-, h2⟩ := h
          subst h2
          exact ihV o e s _ _ heq
        · rename_i v s₁ heq
          exact (ihV o e s _ _ heq).comp (ihA o rest (acc ++ [v]) s₁ r s' h)
    -- callFunction
    · intro o decl args s r s' h
      cases decl with
      | mk nm ps body =>
        simp only [callFunction] at h
        split at h
        · exact Option.noConfusion h
        · rename_i env heq
          have hmid : Preserves s { s with store := s.store ++ [env] } :=
            ⟨rfl, Nat.le_refl _, fun i n hp => presentStore_append _ hp⟩
          split at h
          · exact Option.noConfusion h
          · rename_i v s₁ heq₂
            simp only [Option.some.injEq, Prod.mk.injEq] at h
            obtain ⟨-, h2⟩ := h
            subst h2
            exact hmid.comp (ihEB o body _ _ _ _ heq₂)
          · rename_i re s₁ heq₂
            simp only [Option.some.injEq, Prod.mk.injEq] at h
            obtain ⟨-, h2⟩ := h
            subst h2
            exact hmid.comp (ihEB o body _ _ _ _ heq₂)
          · rename_i u s₁ heq₂
            simp only [Option.some.injEq, Prod.mk.injEq] at h
            obtain ⟨-, h2⟩ := h
            subst h2
            exact hmid.comp (ihEB o body _ _ _ _ heq₂)

theorem interpretLoop_preserves : ∀ (fuel : Nat) (o : ClockOracle)
    (stmts : List Stmt) (s : State) (r : Except RuntimeBreak Unit)
    (s' : State), interpretLoop fuel o stmts s = some (r, s') →
    Preserves s s' := by
  intro fuel
  induction fuel with
  | zero => intro o stmts s r s' h; simp [interpretLoop] at h
  | succ fuel ih =>
    intro o stmts s r s' h
    cases stmts with
    | nil =>
      simp only [interpretLoop, Option.some.injEq, Prod.mk.injEq] at h
      obtain ⟨-, h2⟩ := h
      subst h2
      exact Preserves.refl s
    | cons stmt rest =>
      simp only [interpretLoop] at h
      split at h
      · exact Option.noConfusion h
      · rename_i err s₁ heq
        simp only [Option.some.injEq, Prod.mk.injEq] at h
        obtain ⟨-, h2⟩ := h
        subst h2
        exact (evalPreserves fuel).1 o stmt s _ _ heq
      · rename_i u s₁ heq
        exact ((evalPreserves fuel).1 o stmt s _ _ heq).comp
          (ih o rest s₁ r s' h)


/-- The final state of the C8 counterexample run: `var clock = 5;`
executed from the freshly constructed interpreter. -/
def c8FinalState : State :=
  { store := [⟨none, [("clock", Literal.number 5),
      ("clock", Literal.nativeFunc .clock)]⟩]
  , globals := 0, environment := 0, output := [], ticks := 0 }

/-- C8 counterexample: executing `var clock = 5;` from the freshly
constructed interpreter rebinds the name clock in the globals
environment (the top-level current environment is the globals) to the
number 5, which is not the native clock function — so the globals clock
binding does not hold the native clock in every reachable state. -/
theorem clock_rebound_by_user_code :
    (interpret 5 (fun _ => 0)
        [Stmt.varDeclStmt (Token.mk .identifier "clock" .null 1)
          (.litExpr (.number 5))] Interpreter.new).map
      (fun p => match p.2.store[p.2.globals]? with
        | some env => valuesGet env.values "clock"
        | none => none)
      = some (some (.number 5)) ∧
    Literal.number 5 ≠ Literal.nativeFunc .clock :=
  ⟨rfl, fun h => Literal.noConfusion h⟩

/-- C8 (amended): at construction the globals environment binds clock to
the native clock function, and interpreting any statement list from the
freshly constructed interpreter keeps the globals index unchanged and
keeps a binding named clock present in the globals environment — but
its value may have been changed by user code, as the counterexample
shows. -/
theorem globals_clock_binding_persists (fuel : Nat) (o : ClockOracle)
    (stmts : List Stmt) (r : Except RuntimeBreak Unit) (s' : State)
    (h : interpret fuel o stmts Interpreter.new = some (r, s')) :
    (∃ env, Interpreter.new.store[Interpreter.new.globals]? = some env ∧
      valuesGet env.values "clock" = some (.nativeFunc .clock)) ∧
    s'.globals = Interpreter.new.globals ∧
    ∃ env, s'.store[s'.globals]? = some env ∧
      (valuesGet env.values "clock").isSome = true := by
  have hp := interpretLoop_preserves fuel o stmts Interpreter.new r s' h
  refine ⟨⟨(Environment.new none).define "clock" (.nativeFunc .clock),
    rfl, rfl⟩, hp.1, ?_⟩
  have hpres : presentStore Interpreter.new.store 0 "clock" :=
    ⟨(Environment.new none).define "clock" (.nativeFunc .clock), rfl, rfl⟩
  have h0 := hp.2.2 0 "clock" hpres
  rw [hp.1]
  exact h0

/-- C8 witness: the amended theorem applied to the concrete run
`var clock = 5;` — the clock binding is still present afterwards (its
value is now the number 5). -/
theorem globals_clock_binding_persists_witness :
    (∃ env, Interpreter.new.store[Interpreter.new.globals]? = some env ∧
      valuesGet env.values "clock" = some (.nativeFunc .clock)) ∧
    c8FinalState.globals = Interpreter.new.globals ∧
    ∃ env, c8FinalState.store[c8FinalState.globals]? = some env ∧
      (valuesGet env.values "clock").isSome = true := by
  have hres : interpret 5 (fun _ => 0)
      [Stmt.varDeclStmt (Token.mk .identifier "clock" .null 1)
        (.litExpr (.number 5))] Interpreter.new =
      some (.ok (), c8FinalState) := by rfl
  exact globals_clock_binding_persists 5 (fun _ => 0)
    [Stmt.varDeclStmt (Token.mk .identifier "clock" .null 1)
      (.litExpr (.number 5))] (.ok ()) c8FinalState hres

set_option maxHeartbeats 4000000 in
theorem evalOracle : ∀ fuel : Nat,
    (∀ o₁ o₂ stmt s r s', execute fuel o₁ stmt s = some (r, s') →
      s'.ticks = s.ticks → execute fuel o₂ stmt s = some (r, s')) ∧
    (∀ o₁ o₂ cond body s r s', whileLoop fuel o₁ cond body s = some (r, s') →
      s'.ticks = s.ticks → whileLoop fuel o₂ cond body s = some (r, s')) ∧
    (∀ o₁ o₂ stmts env s r s',
      executeBlock fuel o₁ stmts env s = some (r, s') →
      s'.ticks = s.ticks → executeBlock fuel o₂ stmts env s = some (r, s')) ∧
    (∀ o₁ o₂ stmts prev s r s',
      blockLoop fuel o₁ stmts prev s = some (r, s') →
      s'.ticks = s.ticks → blockLoop fuel o₂ stmts prev s = some (r, s')) ∧
    (∀ o₁ o₂ e s r s', evaluate fuel o₁ e s = some (r, s') →
      s'.ticks = s.ticks → evaluate fuel o₂ e s = some (r, s')) ∧
    (∀ o₁ o₂ es acc s r s', evalArgs fuel o₁ es acc s = some (r, s') →
      s'.ticks = s.ticks → evalArgs fuel o₂ es acc s = some (r, s')) ∧
    (∀ o₁ o₂ decl args s r s',
      callFunction fuel o₁ decl args s = some (r, s') →
      s'.ticks = s.ticks → callFunction fuel o₂ decl args s = some (r, s')) := by
  intro fuel
  induction fuel with
  | zero =>
    refine ⟨?_, ?_, ?_, ?_, ?_, ?_, ?_⟩ <;>
      · intros o₁ o₂ a s r s' h
        simp_all [execute, whileLoop, executeBlock, blockLoop, evaluate,
          evalArgs, callFunction]
  | succ fuel ih =>
    obtain ⟨ihE, ihW, ihEB, ihBL, ihV, ihA, ihC⟩ := ih
    obtain ⟨pE, pW, pEB, pBL, pV, pA, pC⟩ := evalPreserves fuel
    refine ⟨?_, ?_, ?_, ?_, ?_, ?_, ?_⟩
    -- execute
    · intro o₁ o₂ stmt s r s' h hticks
      cases stmt with
      | exprStmt e =>
        simp only [execute] at h
        split at h
        · exact Option.noConfusion h
        · rename_i v s₁ heq
          simp only [Option.some.injEq, Prod.mk.injEq] at h
          obtain ⟨h1, h2⟩ := h
          subst h2
          subst h1
          simp only [execute, ihV o₁ o₂ e s _ _ heq hticks]
        · rename_i err s₁ heq
          simp only [Option.some.injEq, Prod.mk.injEq] at h
          obtain ⟨h1, h2⟩ := h
          subst h2
          subst h1
          simp only [execute, ihV o₁ o₂ e s _ _ heq hticks]
      | printStmt e =>
        simp only [execute] at h
        split at h
        · exact Option.noConfusion h
        · rename_i err s₁ heq
          simp only [Option.some.injEq, Prod.mk.injEq] at h
          obtain ⟨h1, h2⟩ := h
          subst h2
          subst h1
          simp only [execute, ihV o₁ o₂ e s _ _ heq hticks]
        · rename_i v s₁ heq
          simp only [Option.some.injEq, Prod.mk.injEq] at h
          obtain ⟨h1, h2⟩ := h
          subst h2
          subst h1
          simp only [execute, ihV o₁ o₂ e s _ _ heq hticks]
      | ifStmt cond thenB elseB =>
        simp only [execute] at h
        split at h
        · exact Option.noConfusion h
        · rename_i err s₁ heq
          simp only [Option.some.injEq, Prod.mk.injEq] at h
          obtain ⟨h1, h2⟩ := h
          subst h2
          subst h1
          simp only [execute, ihV o₁ o₂ cond s _ _ heq hticks]
        · rename_i v s₁ heq
          split at h
          · rename_i hc
            have m₁ := (pV o₁ cond s _ _ heq).2.1
            have m₂ := (pE o₁ thenB s₁ r s' h).2.1
            have ht₁ : s₁.ticks = s.ticks := by omega
            have ht₂ : s'.ticks = s₁.ticks := by omega
            simp only [execute, ihV o₁ o₂ cond s _ _ heq ht₁]
            rw [if_pos hc]
            exact ihE o₁ o₂ thenB s₁ r s' h ht₂
          · rename_i hc
            split at h
            · rename_i hc₂
              have m₁ := (pV o₁ cond s _ _ heq).2.1
              have m₂ := (pE o₁ elseB s₁ r s' h).2.1
              have ht₁ : s₁.ticks = s.ticks := by omega
              have ht₂ : s'.ticks = s₁.ticks := by omega
              simp only [execute, ihV o₁ o₂ cond s _ _ heq ht₁]
              rw [if_neg hc, if_pos hc₂]
              exact ihE o₁ o₂ elseB s₁ r s' h ht₂
            · rename_i hc₂
              simp only [Option.some.injEq, Prod.mk.injEq] at h
              obtain ⟨h1, h2⟩ := h
              subst h2
              subst h1
              simp only [execute, ihV o₁ o₂ cond s _ _ heq hticks]
              rw [if_neg hc, if_neg hc₂]
      | whileStmt cond body =>
        simp only [execute] at h
        simp only [execute]
        exact ihW o₁ o₂ cond body s r s' h hticks
      | varDeclStmt name init =>
        simp only [execute] at h
        split at h
        · rename_i hc
          split at h
          · exact Option.noConfusion h
          · rename_i err s₁ heq
            simp only [Option.some.injEq, Prod.mk.injEq] at h
            obtain ⟨h1, h2⟩ := h
            subst h2
            subst h1
            simp only [execute, ihV o₁ o₂ init s _ _ heq hticks]
            rw [if_pos hc]
          · rename_i v s₁ heq
            simp only [Option.some.injEq, Prod.mk.injEq] at h
            obtain ⟨h1, h2⟩ := h
            subst h2
            subst h1
            simp only [execute, ihV o₁ o₂ init s _ _ heq hticks]
            rw [if_pos hc]
        · rename_i hc
          simp only [Option.some.injEq, Prod.mk.injEq] at h
          obtain ⟨h1, h2⟩ := h
          subst h2
          subst h1
          simp only [execute]
          rw [if_neg hc]
      | funcDeclStmt decl =>
        cases decl with
        | mk nm ps bd =>
          simp only [execute, Option.some.injEq, Prod.mk.injEq] at h
          obtain ⟨h1, h2⟩ := h
          subst h2
          subst h1
          rfl
      | returnStmt tk value =>
        simp only [execute] at h
        split at h
        · rename_i hc
          split at h
          · exact Option.noConfusion h
          · rename_i err s₁ heq
            simp only [Option.some.injEq, Prod.mk.injEq] at h
            obtain ⟨h1, h2⟩ := h
            subst h2
            subst h1
            simp only [execute, ihV o₁ o₂ value s _ _ heq hticks]
            rw [if_pos hc]
          · rename_i v s₁ heq
            simp only [Option.some.injEq, Prod.mk.injEq] at h
            obtain ⟨h1, h2⟩ := h
            subst h2
            subst h1
            simp only [execute, ihV o₁ o₂ value s _ _ heq hticks]
            rw [if_pos hc]
        · rename_i hc
          simp only [Option.some.injEq, Prod.mk.injEq] at h
          obtain ⟨h1, h2⟩ := h
          subst h2
          subst h1
          simp only [execute]
          rw [if_neg hc]
      | blockStmt stmts =>
        simp only [execute] at h
        simp only [execute]
        exact ihEB o₁ o₂ stmts s.store.length
          { s with store := s.store ++ [Environment.new (some s.environment)] }
          r s' h hticks
      | forStmt a b c d e =>
        simp only [execute, Option.some.injEq, Prod.mk.injEq] at h
        obtain ⟨h1, h2⟩ := h
        subst h2
        subst h1
        rfl
    -- whileLoop
    · intro o₁ o₂ cond body s r s' h hticks
      simp only [whileLoop] at h
      split at h
      · exact Option.noConfusion h
      · rename_i err s₁ heq
        simp only [Option.some.injEq, Prod.mk.injEq] at h
        obtain ⟨h1, h2⟩ := h
        subst h2
        subst h1
        simp only [whileLoop, ihV o₁ o₂ cond s _ _ heq hticks]
      · rename_i v s₁ heq
        split at h
        · rename_i hc
          split at h
          · exact Option.noConfusion h
          · rename_i err s₂ heq₂
            simp only [Option.some.injEq, Prod.mk.injEq] at h
            obtain ⟨h1, h2⟩ := h
            subst h2
            subst h1
            have m₁ := (pV o₁ cond s _ _ heq).2.1
            have m₂ := (pE o₁ body s₁ _ _ heq₂).2.1
            have ht₁ : s₁.ticks = s.ticks := by omega
            have ht₂ : s₂.ticks = s₁.ticks := by omega
            simp only [whileLoop, ihV o₁ o₂ cond s _ _ heq ht₁]
            rw [if_pos hc]
            simp only [ihE o₁ o₂ body s₁ _ _ heq₂ ht₂]
          · rename_i u s₂ heq₂
            have m₁ := (pV o₁ cond s _ _ heq).2.1
            have m₂ := (pE o₁ body s₁ _ _ heq₂).2.1
            have m₃ := (pW o₁ cond body s₂ r s' h).2.1
            have ht₁ : s₁.ticks = s.ticks := by omega
            have ht₂ : s₂.ticks = s₁.ticks := by omega
            have ht₃ : s'.ticks = s₂.ticks := by omega
            simp only [whileLoop, ihV o₁ o₂ cond s _ _ heq ht₁]
            rw [if_pos hc]
            simp only [ihE o₁ o₂ body s₁ _ _ heq₂ ht₂]
            exact ihW o₁ o₂ cond body s₂ r s' h ht₃
        · rename_i hc
          simp only [Option.some.injEq, Prod.mk.injEq] at h
          obtain ⟨h1, h2⟩ := h
          subst h2
          subst h1
          simp only [whileLoop, ihV o₁ o₂ cond s _ _ heq hticks]
          rw [if_neg hc]
    -- executeBlock
    · intro o₁ o₂ stmts env s r s' h hticks
      simp only [executeBlock] at h
      simp only [executeBlock]
      exact ihBL o₁ o₂ stmts s.environment { s with environment := env }
        r s' h hticks
    -- blockLoop
    · intro o₁ o₂ stmts prev s r s' h hticks
      cases stmts with
      | nil =>
        simp only [blockLoop, Option.some.injEq, Prod.mk.injEq] at h
        obtain ⟨h1, h2⟩ := h
        subst h2
        subst h1
        rfl
      | cons stmt rest =>
        simp only [blockLoop] at h
        split at h
        · exact Option.noConfusion h
        · rename_i err s₁ heq
          simp only [Option.some.injEq, Prod.mk.injEq] at h
          obtain ⟨h1, h2⟩ := h
          subst h2
          subst h1
          simp only [blockLoop, ihE o₁ o₂ stmt s _ _ heq hticks]
        · rename_i u s₁ heq
          have m₁ := (pE o₁ stmt s _ _ heq).2.1
          have m₂ := (pBL o₁ rest prev s₁ r s' h).2.1
          have ht₁ : s₁.ticks = s.ticks := by omega
          have ht₂ : s'.ticks = s₁.ticks := by omega
          simp only [blockLoop, ihE o₁ o₂ stmt s _ _ heq ht₁]
          exact ihBL o₁ o₂ rest prev s₁ r s' h ht₂
    -- evaluate
    · intro o₁ o₂ e s r s' h hticks
      cases e with
      | groupingExpr g =>
        simp only [evaluate] at h
        simp only [evaluate]
        exact ihV o₁ o₂ g s r s' h hticks
      | binaryExpr el op er =>
        simp only [evaluate] at h
        split at h
        · exact Option.noConfusion h
        · rename_i err s₁ heq
          simp only [Option.some.injEq, Prod.mk.injEq] at h
          obtain ⟨h1, h2⟩ := h
          subst h2
          subst h1
          simp only [evaluate, ihV o₁ o₂ el s _ _ heq hticks]
        · rename_i lv s₁ heq
          split at h
          · exact Option.noConfusion h
          · rename_i err s₂ heq₂
            simp only [Option.some.injEq, Prod.mk.injEq] at h
            obtain ⟨h1, h2⟩ := h
            subst h2
            subst h1
            have m₁ := (pV o₁ el s _ _ heq).2.1
            have m₂ := (pV o₁ er s₁ _ _ heq₂).2.1
            have ht₁ : s₁.ticks = s.ticks := by omega
            have ht₂ : s₂.ticks = s₁.ticks := by omega
            simp only [evaluate, ihV o₁ o₂ el s _ _ heq ht₁,
              ihV o₁ o₂ er s₁ _ _ heq₂ ht₂]
          · rename_i rv s₂ heq₂
            simp only [Option.some.injEq, Prod.mk.injEq] at h
            obtain ⟨h1, h2⟩ := h
            subst h2
            subst h1
            have m₁ := (pV o₁ el s _ _ heq).2.1
            have m₂ := (pV o₁ er s₁ _ _ heq₂).2.1
            have ht₁ : s₁.ticks = s.ticks := by omega
            have ht₂ : s₂.ticks = s₁.ticks := by omega
            simp only [evaluate, ihV o₁ o₂ el s _ _ heq ht₁,
              ihV o₁ o₂ er s₁ _ _ heq₂ ht₂]
      | unaryExpr op er =>
        simp only [evaluate] at h
        split at h
        · exact Option.noConfusion h
        · rename_i err s₁ heq
          simp only [Option.some.injEq, Prod.mk.injEq] at h
          obtain ⟨h1, h2⟩ := h
          subst h2
          subst h1
          simp only [evaluate, ihV o₁ o₂ er s _ _ heq hticks]
        · rename_i rv s₁ heq
          simp only [Option.some.injEq, Prod.mk.injEq] at h
          obtain ⟨h1, h2⟩ := h
          subst h2
          subst h1
          simp only [evaluate, ihV o₁ o₂ er s _ _ heq hticks]
      | varExpr name =>
        simp only [evaluate] at h
        split at h
        · exact Option.noConfusion h
        · rename_i v heq
          simp only [Option.some.injEq, Prod.mk.injEq] at h
          obtain ⟨h1, h2⟩ := h
          subst h2
          subst h1
          simp only [evaluate, heq]
        · rename_i re heq
          simp only [Option.some.injEq, Prod.mk.injEq] at h
          obtain ⟨h1, h2⟩ := h
          subst h2
          subst h1
          simp only [evaluate, heq]
      | assignExpr name value =>
        simp only [evaluate] at h
        split at h
        · exact Option.noConfusion h
        · rename_i err s₁ heq
          simp only [Option.some.injEq, Prod.mk.injEq] at h
          obtain ⟨h1, h2⟩ := h
          subst h2
          subst h1
          simp only [evaluate, ihV o₁ o₂ value s _ _ heq hticks]
        · rename_i v s₁ heq
          split at h
          · exact Option.noConfusion h
          · rename_i store' heq₂
            simp only [Option.some.injEq, Prod.mk.injEq] at h
            obtain ⟨h1, h2⟩ := h
            subst h2
            subst h1
            simp only [evaluate, ihV o₁ o₂ value s _ _ heq hticks, heq₂]
          · rename_i err heq₂
            simp only [Option.some.injEq, Prod.mk.injEq] at h
            obtain ⟨h1, h2⟩ := h
            subst h2
            subst h1
            simp only [evaluate, ihV o₁ o₂ value s _ _ heq hticks, heq₂]
      | logicExpr el op er =>
        simp only [evaluate] at h
        split at h
        · exact Option.noConfusion h
        · rename_i err s₁ heq
          simp only [Option.some.injEq, Prod.mk.injEq] at h
          obtain ⟨h1, h2⟩ := h
          subst h2
          subst h1
          simp only [evaluate, ihV o₁ o₂ el s _ _ heq hticks]
        · rename_i lv s₁ heq
          split at h
          · rename_i hc
            simp only [Option.some.injEq, Prod.mk.injEq] at h
            obtain ⟨h1, h2⟩ := h
            subst h2
            subst h1
            simp only [evaluate, ihV o₁ o₂ el s _ _ heq hticks]
            rw [if_pos hc]
          · rename_i hc
            have m₁ := (pV o₁ el s _ _ heq).2.1
            have m₂ := (pV o₁ er s₁ r s' h).2.1
            have ht₁ : s₁.ticks = s.ticks := by omega
            have ht₂ : s'.ticks = s₁.ticks := by omega
            simp only [evaluate, ihV o₁ o₂ el s _ _ heq ht₁]
            rw [if_neg hc]
            exact ihV o₁ o₂ er s₁ r s' h ht₂
      | callExpr calleeE paren argsE =>
        simp only [evaluate] at h
        split at h
        · exact Option.noConfusion h
        · rename_i err s₁ heq
          simp only [Option.some.injEq, Prod.mk.injEq] at h
          obtain ⟨h1, h2⟩ := h
          subst h2
          subst h1
          simp only [evaluate, ihV o₁ o₂ calleeE s _ _ heq hticks]
        · rename_i callee s₁ heq
          have hm₁ : s.ticks ≤ s₁.ticks := (pV o₁ calleeE s _ _ heq).2.1
          split at h
          · exact Option.noConfusion h
          · rename_i argsR s₂ heq₂
            have hm₂ : s₁.ticks ≤ s₂.ticks := by
              cases argsE with
              | some es => exact (pA o₁ es [] s₁ _ _ heq₂).2.1
              | none =>
                simp only [Option.some.injEq, Prod.mk.injEq] at heq₂
                obtain ⟨-, hh⟩ := heq₂
                subst hh
                exact Nat.le_refl _
            cases callee with
            | func decl =>
              cases argsR with
              | ok args =>
                simp only [] at h
                by_cases hc : arity decl ≠ args.length
                · rw [if_pos hc] at h
                  simp only [Option.some.injEq, Prod.mk.injEq] at h
                  obtain ⟨h1, h2⟩ := h
                  subst h2
                  subst h1
                  have ht₁ : s₁.ticks = s.ticks := by omega
                  have ht₂ : s₂.ticks = s₁.ticks := by omega
                  cases argsE with
                  | some es =>
                    simp only [evaluate, ihV o₁ o₂ calleeE s _ _ heq ht₁,
                      ihA o₁ o₂ es [] s₁ _ _ heq₂ ht₂]
                    rw [if_pos hc]
                  | none =>
                    simp only [Option.some.injEq, Prod.mk.injEq] at heq₂
                    obtain ⟨hh1, hh2⟩ := heq₂
                    subst hh2
                    injection hh1 with hh1
                    subst hh1
                    simp only [evaluate, ihV o₁ o₂ calleeE s _ _ heq ht₁]
                    rw [if_pos hc]
                · rw [if_neg hc] at h
                  have hm₃ : s₂.ticks ≤ s'.ticks := (pC o₁ decl args s₂ r s' h).2.1
                  have ht₁ : s₁.ticks = s.ticks := by omega
                  have ht₂ : s₂.ticks = s₁.ticks := by omega
                  have ht₃ : s'.ticks = s₂.ticks := by omega
                  cases argsE with
                  | some es =>
                    simp only [evaluate, ihV o₁ o₂ calleeE s _ _ heq ht₁,
                      ihA o₁ o₂ es [] s₁ _ _ heq₂ ht₂]
                    rw [if_neg hc]
                    exact ihC o₁ o₂ decl args s₂ r s' h ht₃
                  | none =>
                    simp only [Option.some.injEq, Prod.mk.injEq] at heq₂
                    obtain ⟨hh1, hh2⟩ := heq₂
                    subst hh2
                    injection hh1 with hh1
                    subst hh1
                    simp only [evaluate, ihV o₁ o₂ calleeE s _ _ heq ht₁]
                    rw [if_neg hc]
                    exact ihC o₁ o₂ decl [] s₁ r s' h ht₃
              | error err =>
                simp only [Option.some.injEq, Prod.mk.injEq] at h
                obtain ⟨h1, h2⟩ := h
                subst h2
                subst h1
                have ht₁ : s₁.ticks = s.ticks := by omega
                have ht₂ : s₂.ticks = s₁.ticks := by omega
                cases argsE with
                | some es =>
                  simp only [evaluate, ihV o₁ o₂ calleeE s _ _ heq ht₁,
                    ihA o₁ o₂ es [] s₁ _ _ heq₂ ht₂]
                | none => exact Except.noConfusion (Prod.mk.injEq .. ▸ (Option.some.inj heq₂)).1
            | nativeFunc nf =>
              cases argsR with
              | ok args =>
                simp only [] at h
                by_cases hc : nativeArity nf ≠ args.length
                · rw [if_pos hc] at h
                  simp only [Option.some.injEq, Prod.mk.injEq] at h
                  obtain ⟨h1, h2⟩ := h
                  subst h2
                  subst h1
                  have ht₁ : s₁.ticks = s.ticks := by omega
                  have ht₂ : s₂.ticks = s₁.ticks := by omega
                  cases argsE with
                  | some es =>
                    simp only [evaluate, ihV o₁ o₂ calleeE s _ _ heq ht₁,
                      ihA o₁ o₂ es [] s₁ _ _ heq₂ ht₂]
                    rw [if_pos hc]
                  | none =>
                    simp only [Option.some.injEq, Prod.mk.injEq] at heq₂
                    obtain ⟨hh1, hh2⟩ := heq₂
                    subst hh2
                    injection hh1 with hh1
                    subst hh1
                    simp only [evaluate, ihV o₁ o₂ calleeE s _ _ heq ht₁]
                    rw [if_pos hc]
                · rw [if_neg hc] at h
                  simp only [Option.some.injEq, Prod.mk.injEq] at h
                  obtain ⟨h1, h2⟩ := h
                  subst h2
                  have hx : s₂.ticks + 1 = s.ticks := hticks
                  exact absurd hx (by omega)
              | error err =>
                simp only [Option.some.injEq, Prod.mk.injEq] at h
                obtain ⟨h1, h2⟩ := h
                subst h2
                subst h1
                have ht₁ : s₁.ticks = s.ticks := by omega
                have ht₂ : s₂.ticks = s₁.ticks := by omega
                cases argsE with
                | some es =>
                  simp only [evaluate, ihV o₁ o₂ calleeE s _ _ heq ht₁,
                    ihA o₁ o₂ es [] s₁ _ _ heq₂ ht₂]
                | none => exact Except.noConfusion (Prod.mk.injEq .. ▸ (Option.some.inj heq₂)).1
            | string a =>
              simp only [Option.some.injEq, Prod.mk.injEq] at h
              obtain ⟨h1, h2⟩ := h
              subst h2
              subst h1
              have ht₁ : s₁.ticks = s.ticks := by omega
              have ht₂ : s₂.ticks = s₁.ticks := by omega
              cases argsE with
              | some es =>
                simp only [evaluate, ihV o₁ o₂ calleeE s _ _ heq ht₁,
                  ihA o₁ o₂ es [] s₁ _ _ heq₂ ht₂]
              | none =>
                simp only [Option.some.injEq, Prod.mk.injEq] at heq₂
                obtain ⟨-, hh2⟩ := heq₂
                subst hh2
                simp only [evaluate, ihV o₁ o₂ calleeE s _ _ heq ht₁]
            | number a =>
              simp only [Option.some.injEq, Prod.mk.injEq] at h
              obtain ⟨h1, h2⟩ := h
              subst h2
              subst h1
              have ht₁ : s₁.ticks = s.ticks := by omega
              have ht₂ : s₂.ticks = s₁.ticks := by omega
              cases argsE with
              | some es =>
                simp only [evaluate, ihV o₁ o₂ calleeE s _ _ heq ht₁,
                  ihA o₁ o₂ es [] s₁ _ _ heq₂ ht₂]
              | none =>
                simp only [Option.some.injEq, Prod.mk.injEq] at heq₂
                obtain ⟨-, hh2⟩ := heq₂
                subst hh2
                simp only [evaluate, ihV o₁ o₂ calleeE s _ _ heq ht₁]
            | bool a =>
              simp only [Option.some.injEq, Prod.mk.injEq] at h
              obtain ⟨h1, h2⟩ := h
              subst h2
              subst h1
              have ht₁ : s₁.ticks = s.ticks := by omega
              have ht₂ : s₂.ticks = s₁.ticks := by omega
              cases argsE with
              | some es =>
                simp only [evaluate, ihV o₁ o₂ calleeE s _ _ heq ht₁,
                  ihA o₁ o₂ es [] s₁ _ _ heq₂ ht₂]
              | none =>
                simp only [Option.some.injEq, Prod.mk.injEq] at heq₂
                obtain ⟨-, hh2⟩ := heq₂
                subst hh2
                simp only [evaluate, ihV o₁ o₂ calleeE s _ _ heq ht₁]
            | null =>
              simp only [Option.some.injEq, Prod.mk.injEq] at h
              obtain ⟨h1, h2⟩ := h
              subst h2
              subst h1
              have ht₁ : s₁.ticks = s.ticks := by omega
              have ht₂ : s₂.ticks = s₁.ticks := by omega
              cases argsE with
              | some es =>
                simp only [evaluate, ihV o₁ o₂ calleeE s _ _ heq ht₁,
                  ihA o₁ o₂ es [] s₁ _ _ heq₂ ht₂]
              | none =>
                simp only [Option.some.injEq, Prod.mk.injEq] at heq₂
                obtain ⟨-, hh2⟩ := heq₂
                subst hh2
                simp only [evaluate, ihV o₁ o₂ calleeE s _ _ heq ht₁]
      | litExpr l =>
        simp only [evaluate, Option.some.injEq, Prod.mk.injEq] at h
        obtain ⟨h1, h2⟩ := h
        subst h2
        subst h1
        rfl
    -- evalArgs
    · intro o₁ o₂ es acc s r s' h hticks
      cases es with
      | nil =>
        simp only [evalArgs, Option.some.injEq, Prod.mk.injEq] at h
        obtain ⟨h1, h2⟩ := h
        subst h2
        subst h1
        rfl
      | cons e rest =>
        simp only [evalArgs] at h
        split at h
        · exact Option.noConfusion h
        · rename_i err s₁ heq
          simp only [Option.some.injEq, Prod.mk.injEq] at h
          obtain ⟨h1, h2⟩ := h
          subst h2
          subst h1
          simp only [evalArgs, ihV o₁ o₂ e s _ _ heq hticks]
        · rename_i v s₁ heq
          have m₁ := (pV o₁ e s _ _ heq).2.1
          have m₂ := (pA o₁ rest (acc ++ [v]) s₁ r s' h).2.1
          have ht₁ : s₁.ticks = s.ticks := by omega
          have ht₂ : s'.ticks = s₁.ticks := by omega
          simp only [evalArgs, ihV o₁ o₂ e s _ _ heq ht₁]
          exact ihA o₁ o₂ rest (acc ++ [v]) s₁ r s' h ht₂
    -- callFunction
    · intro o₁ o₂ decl args s r s' h hticks
      cases decl with
      | mk nm ps body =>
        simp only [callFunction] at h
        split at h
        · exact Option.noConfusion h
        · rename_i env heq
          split at h
          · exact Option.noConfusion h
          · rename_i v s₁ heq₂
            simp only [Option.some.injEq, Prod.mk.injEq] at h
            obtain ⟨h1, h2⟩ := h
            subst h2
            subst h1
            simp only [callFunction, heq,
              ihEB o₁ o₂ body s.store.length
                { s with store := s.store ++ [env] } _ _ heq₂ hticks]
          · rename_i re s₁ heq₂
            simp only [Option.some.injEq, Prod.mk.injEq] at h
            obtain ⟨h1, h2⟩ := h
            subst h2
            subst h1
            simp only [callFunction, heq,
              ihEB o₁ o₂ body s.store.length
                { s with store := s.store ++ [env] } _ _ heq₂ hticks]
          · rename_i u s₁ heq₂
            simp only [Option.some.injEq, Prod.mk.injEq] at h
            obtain ⟨h1, h2⟩ := h
            subst h2
            subst h1
            simp only [callFunction, heq,
              ihEB o₁ o₂ body s.store.length
                { s with store := s.store ++ [env] } _ _ heq₂ hticks]

theorem interpretLoop_oracle : ∀ (fuel : Nat) (o₁ o₂ : ClockOracle)
    (stmts : List Stmt) (s : State) (r : Except RuntimeBreak Unit)
    (s' : State), interpretLoop fuel o₁ stmts s = some (r, s') →
    s'.ticks = s.ticks → interpretLoop fuel o₂ stmts s = some (r, s') := by
  intro fuel
  induction fuel with
  | zero => intro o₁ o₂ stmts s r s' h; simp [interpretLoop] at h
  | succ fuel ih =>
    intro o₁ o₂ stmts s r s' h hticks
    cases stmts with
    | nil =>
      simp only [interpretLoop, Option.some.injEq, Prod.mk.injEq] at h
      obtain ⟨h1, h2⟩ := h
      subst h2
      subst h1
      rfl
    | cons stmt rest =>
      simp only [interpretLoop] at h
      split at h
      · exact Option.noConfusion h
      · rename_i err s₁ heq
        simp only [Option.some.injEq, Prod.mk.injEq] at h
        obtain ⟨h1, h2⟩ := h
        subst h2
        subst h1
        simp only [interpretLoop, (evalOracle fuel).1 o₁ o₂ stmt s _ _ heq hticks]
      · rename_i u s₁ heq
        have m₁ := ((evalPreserves fuel).1 o₁ stmt s _ _ heq).2.1
        have m₂ := (interpretLoop_preserves fuel o₁ rest s₁ r s' h).2.1
        have ht₁ : s₁.ticks = s.ticks := by omega
        have ht₂ : s'.ticks = s₁.ticks := by omega
        simp only [interpretLoop, (evalOracle fuel).1 o₁ o₂ stmt s _ _ heq ht₁]
        exact ih o₁ o₂ rest s₁ r s' h ht₂

/-- C10: interpretation that never invokes the native clock is
deterministic.  The tick counter counts exactly the native-clock
invocations and starts at 0, so s'.ticks = 0 states that the run never
consulted the SystemTime oracle; then a run of the same statement list
from the freshly constructed interpreter under ANY other oracle produces
the identical outcome: the same final state s' — in particular the same
printed lines (s'.output) — and the same result r (Ok or the same
error). -/
theorem interpret_deterministic_without_clock (fuel : Nat)
    (o₁ o₂ : ClockOracle) (stmts : List Stmt)
    (r : Except RuntimeBreak Unit) (s' : State)
    (h : interpret fuel o₁ stmts Interpreter.new = some (r, s'))
    (hclock : s'.ticks = 0) :
    interpret fuel o₂ stmts Interpreter.new = some (r, s') :=
  interpretLoop_oracle fuel o₁ o₂ stmts Interpreter.new r s' h hclock

/-- The final state of the C10 witness run: `print 1;` from the freshly
constructed interpreter (zero ticks: the clock was never invoked). -/
def c10FinalState : State :=
  { store := [⟨none, [("clock", Literal.nativeFunc .clock)]⟩]
  , globals := 0, environment := 0, output := ["1"], ticks := 0 }

/-- C10 witness: the clock-free program `print 1;` interpreted under the
oracle returning 3 yields this outcome with zero ticks, hence the same
outcome under the oracle returning 7. -/
theorem interpret_deterministic_without_clock_witness :
    interpret 5 (fun _ => 7)
      [Stmt.printStmt (.litExpr (.number 1))] Interpreter.new =
      some (.ok (), c10FinalState) :=
  interpret_deterministic_without_clock 5 (fun _ => 3) (fun _ => 7)
    [Stmt.printStmt (.litExpr (.number 1))] (.ok ()) c10FinalState
    (by rfl) (by rfl)

/-- C1: When a user-defined function is invoked, the fresh environment
created for the call (functionCallEnv, invoked by callFunction with the
interpreter's globals field — a Function value carries no declaration
environment at all) has the globals environment as its parent, and each
parameter name is bound in it to the corresponding argument. -/
theorem call_env_parent_is_globals (name : Token) (params : List Token)
    (body : List Stmt) (args : List Literal) (g : Nat)
    (hnd : (params.map Token.lexeme).Nodup)
    (hlen : args.length = params.length) :
    ∃ env, functionCallEnv (.mk name params body) args g = some env ∧
      env.enclosing = some g ∧
      ∀ i (hp : i < params.length) (hq : i < args.length),
        valuesGet env.values (params.get ⟨i, hp⟩).lexeme =
          some (args.get ⟨i, hq⟩) := by
  have htot := defineParams_total params args (Environment.new (some g))
    (le_of_eq hlen.symm)
  cases henv : defineParams params args (Environment.new (some g)) with
  | none => rw [henv] at htot; simp at htot
  | some env =>
    refine ⟨env, by simpa [functionCallEnv] using henv, ?_, ?_⟩
    · rw [defineParams_enclosing params args _ env henv]
      rfl
    · exact defineParams_lookup params args _ env hnd henv

/-- C1 witness: for a two-parameter function called on two arguments,
the constructed call environment has the globals reference (7) as parent
and binds x to 1 and y to 2. -/
theorem call_env_parent_is_globals_witness :
    ((functionCallEnv
        (.mk (Token.mk .identifier "f" .null 1)
          [Token.mk .identifier "x" .null 1, Token.mk .identifier "y" .null 1]
          [])
        [.number 1, .number 2] 7).map Environment.enclosing) = some (some 7) ∧
    ((functionCallEnv
        (.mk (Token.mk .identifier "f" .null 1)
          [Token.mk .identifier "x" .null 1, Token.mk .identifier "y" .null 1]
          [])
        [.number 1, .number 2] 7).map
      (fun env => valuesGet env.values "x")) = some (some (.number 1)) := by
  obtain ⟨env, h1, h2, h3⟩ := call_env_parent_is_globals
    (Token.mk .identifier "f" .null 1)
    [Token.mk .identifier "x" .null 1, Token.mk .identifier "y" .null 1]
    [] [.number 1, .number 2] 7 (by decide) (by decide)
  rw [h1]
  have h0 := h3 0 (by simp) (by simp)
  exact ⟨by simp [h2], by simpa using h0⟩

/-- C3: Calling a user-defined function yields the value carried by the
return signal if the body raises one, re-raises a runtime error of the
body, and yields Null when the body completes without either — stated
against the outcome of execute_block on the freshly allocated call
environment. -/
theorem call_result_mapping (fuel : Nat) (o : ClockOracle) (name : Token)
    (params : List Token) (body : List Stmt) (args : List Literal)
    (s : State) (env : Environment)
    (henv : functionCallEnv (.mk name params body) args s.globals = some env) :
    (∀ v s', executeBlock fuel o body s.store.length
        { s with store := s.store ++ [env] } = some (.error (.returnBreak v), s') →
      callFunction (fuel + 1) o (.mk name params body) args s = some (.ok v, s')) ∧
    (∀ re s', executeBlock fuel o body s.store.length
        { s with store := s.store ++ [env] } =
          some (.error (.runtimeErrorBreak re), s') →
      callFunction (fuel + 1) o (.mk name params body) args s =
        some (.error (.runtimeErrorBreak re), s')) ∧
    (∀ u s', executeBlock fuel o body s.store.length
        { s with store := s.store ++ [env] } = some (.ok u, s') →
      callFunction (fuel + 1) o (.mk name params body) args s =
        some (.ok .null, s')) := by
  refine ⟨?_, ?_, ?_⟩ <;> intro a s' hres <;>
    simp only [callFunction, henv, hres]

/-- C3 witness: fun f() with body return 1; called on no arguments
yields Ok(Number 1) through the return-signal arm. -/
theorem call_result_mapping_witness :
    ((callFunction 6 (fun _ => 0)
        (.mk (Token.mk .identifier "f" .null 1) []
          [Stmt.returnStmt (Token.mk .return_ "return" .null 1)
            (.litExpr (.number 1))])
        [] Interpreter.new).map Prod.fst) = some (.ok (.number 1)) := by
  obtain ⟨h1, -, -⟩ := call_result_mapping 5 (fun _ => 0)
    (Token.mk .identifier "f" .null 1) []
    [Stmt.returnStmt (Token.mk .return_ "return" .null 1)
      (.litExpr (.number 1))]
    [] Interpreter.new ⟨some 0, []⟩ rfl
  have hres : executeBlock 5 (fun _ => 0)
      [Stmt.returnStmt (Token.mk .return_ "return" .null 1)
        (.litExpr (.number 1))]
      Interpreter.new.store.length
      { Interpreter.new with
        store := Interpreter.new.store ++ [⟨some 0, []⟩] } =
      some (.error (.returnBreak (.number 1)),
        { store := [⟨none, [("clock", Literal.nativeFunc .clock)]⟩,
            ⟨some 0, []⟩],
          globals := 0, environment := 0, output := [], ticks := 0 }) := by rfl
  rw [h1 _ _ hres]
  rfl

end Interpreter

/-- C5 (code bug): evaluating the unary expression bang-nil yields Null,
not the boolean complement of nil's truthiness mandated by the spec; the
second conjunct records that Null differs from Bool(not truthy(nil)) =
Bool true.  The Rust source's own comment calls this arm unreachable,
but it is reached by every non-Bool operand. -/
theorem bang_on_nil_yields_null :
    Interpreter.evaluate 2 (fun _ => 0)
      (.unaryExpr (Token.mk .bang "!" .null 1) (.litExpr .null))
      Interpreter.new = some (.ok .null, Interpreter.new) ∧
    Literal.null ≠ Literal.bool (!Literal.null.is_truthy) :=
  ⟨rfl, fun h => Literal.noConfusion h⟩

/-- C6 (code bug): scanning the block comment source slash-star a star b
star-slash does not consume up to the closing star-slash: the loop stops
at the star in the body, the final two advances swallow star and b, and
the scanner则 emits spurious Star and Slash tokens; moreover a newline
inside a block comment does not bump the line counter (second conjunct:
the Eof token of a source whose block comment spans two lines still
carries line 1). -/
theorem block_comment_star_not_allowed :
    ((Scanner.scanTokens "/*a*b*/").map
      (fun r => r.map (fun ts => ts.map Token.ttype))) =
        some (.ok [.star, .slash, .eof]) ∧
    ((Scanner.scanTokens "/*\n*/").map
      (fun r => r.map (fun ts => ts.map (fun t => (t.ttype, t.line))))) =
        some (.ok [(.eof, 1)]) :=
  ⟨by rfl, by rfl⟩

end Lox
